import Mathlib

/-!
Embedding of the CISA practice application core
(src/cisa-practice-app/src/App.jsx, first revision) and verification of its
specification claims.  JavaScript numbers appearing here are small integers
or exact decimal fractions, modelled as `Nat`/`ℤ`/`ℚ`; JS objects used as
string-keyed maps are modelled as insertion-ordered association lists;
absent JS values are modelled with `Option`.  The JS string builtins used by
the code (`toLowerCase`, `toUpperCase`, `trim`, `split(' ')`, `join(' ')`,
`replace(/ /g,'')`) are modelled by structural recursion on the character
list, matching their ECMAScript behaviour on the ASCII data this program
processes.
-/

namespace CISA

/-- JS `s.toLowerCase()`. -/
def lowerStr (s : String) : String :=
  String.mk (s.data.map Char.toLower)

/-- JS `s.toUpperCase()`. -/
def upperStr (s : String) : String :=
  String.mk (s.data.map Char.toUpper)

/-- JS `s.trim()`: drop whitespace from both ends. -/
def trimStr (s : String) : String :=
  String.mk (((s.data.dropWhile Char.isWhitespace).reverse.dropWhile Char.isWhitespace).reverse)

/-- JS `s.split(' ')` on the character list: split at every single space,
keeping empty fragments (ECMAScript split does not collapse separators). -/
def splitSpace : List Char → List (List Char)
  | [] => [[]]
  | c :: cs =>
    if c = ' ' then [] :: splitSpace cs
    else
      match splitSpace cs with
      | [] => [[c]]
      | w :: ws => (c :: w) :: ws

/-- JS `word.charAt(0).toUpperCase() + word.slice(1)` on a fragment. -/
def titleWord : List Char → List Char
  | [] => []
  | c :: cs => c.toUpper :: cs

/-- JS `arr.join(' ')`. -/
def joinSpace : List (List Char) → List Char
  | [] => []
  | [w] => w
  | w :: ws => w ++ ' ' :: joinSpace ws

/-- A validated question as produced by `transformQuestions`. -/
structure Question where
  id : Nat
  question : String
  options : List String
  correctAnswer : Nat
  domain : String
  explanation : String
deriving Repr, DecidableEq

/-- A raw imported record (fields of qae.json); `none` models an absent field. -/
structure RawQuestion where
  Question : String := ""
  OptionA : Option String := none
  OptionB : Option String := none
  OptionC : Option String := none
  OptionD : Option String := none
  CorrectAnswer : Option String := none
  Domain : Option String := none
  Explanation : Option String := none
  id : Option Nat := none
deriving Repr, DecidableEq

/-- JS `x || d` for an optional string: `undefined`, `null` and `""` are falsy. -/
def strOrDefault (x : Option String) (d : String) : String :=
  match x with
  | none => d
  | some s => if s = "" then d else s

/-- The domain normalization body in `transformQuestions`:
`.toLowerCase().split(' ').map(w => w.charAt(0).toUpperCase()+w.slice(1)).join(' ')`. -/
def titleCase (s : String) : String :=
  String.mk (joinSpace ((splitSpace (lowerStr s).data).map titleWord))

/-- `(rawQ.Domain || 'General')` normalized (App.jsx lines 20-24). -/
def normalizeDomain (raw : Option String) : String :=
  titleCase (strOrDefault raw ("General"))

/-- `(rawQ.CorrectAnswer || 'A').trim().toUpperCase()` (App.jsx line 15). -/
def rawLetter (c : Option String) : String :=
  upperStr (trimStr (strOrDefault c ("A")))

/-- JS `Array.prototype.indexOf`, returning -1 when absent: index of the
first element equal to `x`. -/
def jsIndexOfAux (x : String) : List String → Int
  | [] => -1
  | y :: l =>
    if x = y then 0
    else if jsIndexOfAux x l = -1 then -1 else jsIndexOfAux x l + 1

/-- JS `l.indexOf(x)`. -/
def jsIndexOf (l : List String) (x : String) : Int :=
  jsIndexOfAux x l

/-- JS `s.startsWith(p)`. -/
def startsWithStr (s p : String) : Bool :=
  p.data.isPrefixOf s.data

/-- `['A','B','C','D'].indexOf(letter)` with the `=== -1 → 0` default
(App.jsx lines 16-19). -/
def correctIndexOfLetter (c : Option String) : Nat :=
  let idx := jsIndexOf [("A"), ("B"), ("C"), ("D")] (rawLetter c)
  if idx = -1 then 0 else idx.toNat

/-- `[rawQ.OptionA, rawQ.OptionB, rawQ.OptionC, rawQ.OptionD].filter(Boolean)`:
keep only present, non-empty option fields in field order. -/
def presentOptions (l : List (Option String)) : List String :=
  l.filterMap (fun o =>
    match o with
    | some s => if s = "" then none else some s
    | none => none)

/-- JS `rawQ.id || index + 1` (0 is falsy). -/
def jsOrNat (x : Option Nat) (d : Nat) : Nat :=
  match x with
  | none => d
  | some n => if n = 0 then d else n

/-- One step of the loader (`transformQuestions` mapper, App.jsx lines 13-33);
`index` is the 0-based position of the record in the source order. -/
def transformQuestion (index : Nat) (rawQ : RawQuestion) : Question :=
  { id := jsOrNat rawQ.id (index + 1)
    question := rawQ.Question
    options := presentOptions [rawQ.OptionA, rawQ.OptionB, rawQ.OptionC, rawQ.OptionD]
    correctAnswer := correctIndexOfLetter rawQ.CorrectAnswer
    domain := normalizeDomain rawQ.Domain
    explanation := strOrDefault rawQ.Explanation ("No explanation provided.") }

/-- The Question Bank Loader (`transformQuestions`, App.jsx lines 12-34). -/
def transformQuestions (rawData : List RawQuestion) : List Question :=
  rawData.enum.map (fun p => transformQuestion p.1 p.2)

/-- JS `Math.round` on an exact rational: round half toward positive infinity. -/
def jsRound (x : ℚ) : ℤ :=
  ⌊x + 1 / 2⌋

/-- The fixed CISA domain weight table (App.jsx lines 83-89), in object
insertion order; the decimal literals are exact here. -/
def CISA_DOMAIN_WEIGHTS : List (String × ℚ) :=
  [(("Information System Auditing Process"), 18 / 100),
   (("Governance And Management Of It"), 18 / 100),
   (("Information Systems Acquisition, Development And Implementation"), 12 / 100),
   (("Information Systems Operations And Business Resilience"), 26 / 100),
   (("Protection Of Information Assets"), 26 / 100)]

/-- JS `s.replace(/ /g, '')`. -/
def stripSpaces (s : String) : String :=
  String.mk (s.data.filter (fun ch => ch ≠ ' '))

/-- The grouping key used by `startExamMode`: `q.domain.replace(/ /g, '')`. -/
def domainKey (q : Question) : String :=
  stripSpaces q.domain

/-- Result of `calculateScore` (App.jsx lines 289-293). -/
structure Score where
  correct : Nat
  total : Nat
  percentage : ℤ
deriving Repr, DecidableEq

/-- `calculateScore` (App.jsx lines 289-293); `selectedAnswers` maps a question
id to the chosen option index, `none` meaning unanswered. -/
def calculateScore (questions : List Question) (selectedAnswers : Nat → Option Nat) :
    Score :=
  let correct := (questions.filter (fun q => selectedAnswers q.id = some q.correctAnswer)).length
  let total := questions.length
  { correct := correct
    total := total
    percentage := if total > 0 then jsRound ((correct : ℚ) / (total : ℚ) * 100) else 0 }

/-- A `{correct, total}` entry of `domainBreakdown` / `domainPerformance`,
keyed by domain: `(domain, correct, total)`. -/
abbrev StatEntry := String × Nat × Nat

/-- Add `(correct, total)` counts for one domain into a string-keyed stats
object: mutate the existing entry, or append a fresh one (JS object insertion
order).  This is the shared shape of the accumulation in `domainBreakdown`
(App.jsx lines 256-261) and of the `domainPerformance` update
(App.jsx lines 277-285). -/
def perfAdd (acc : List StatEntry) (e : StatEntry) : List StatEntry :=
  if acc.any (fun p => p.1 = e.1) then
    acc.map (fun p => if p.1 = e.1 then (p.1, p.2.1 + e.2.1, p.2.2 + e.2.2) else p)
  else
    acc ++ [e]

/-- A JS object has no duplicate keys; invariant of all stats objects here. -/
def keysNodup (l : List StatEntry) : Prop :=
  (l.map Prod.fst).Nodup

instance (l : List StatEntry) : Decidable (keysNodup l) := by
  unfold keysNodup; infer_instance

/-- `questions.reduce(...)` building `domainBreakdown`
(App.jsx lines 256-261): per question, `total++` and `correct++` if the
recorded answer equals the correct index. -/
def domainBreakdown (questions : List Question) (selectedAnswers : Nat → Option Nat) :
    List StatEntry :=
  questions.foldl
    (fun acc q =>
      perfAdd acc (q.domain, if selectedAnswers q.id = some q.correctAnswer then 1 else 0, 1))
    []

/-- The `setDomainPerformance` updater (App.jsx lines 277-285): fold every
breakdown entry into the running per-domain totals. -/
def applyBreakdown (perf bd : List StatEntry) : List StatEntry :=
  bd.foldl perfAdd perf

/-- Summed `correct` count of the entries of a stats object for domain `d`. -/
def corrSum (l : List StatEntry) (d : String) : Nat :=
  ((l.filter (fun e => e.1 = d)).map (fun e => e.2.1)).sum

/-- Summed `total` count of the entries of a stats object for domain `d`. -/
def totSum (l : List StatEntry) (d : String) : Nat :=
  ((l.filter (fun e => e.1 = d)).map (fun e => e.2.2)).sum

/-- Sum of `correct` over all entries of a stats object. -/
def correctOfBd (l : List StatEntry) : Nat :=
  (l.map (fun e => e.2.1)).sum

/-- Sum of `total` over all entries of a stats object. -/
def totalOfBd (l : List StatEntry) : Nat :=
  (l.map (fun e => e.2.2)).sum

/-- The immutable session result built by `recordSession`
(App.jsx lines 263-273). -/
structure SessionData where
  id : Nat
  date : Nat
  mode : String
  totalQuestions : Nat
  correctAnswers : Nat
  percentage : ℤ
  timeSpent : ℤ
  domainBreakdown : List StatEntry
  questionTimes : Nat → Nat

/-- The component state of `CISAPracticeApp` relevant to the engine
(answers, history, aggregates, timing). -/
structure AppState where
  allQuestions : List Question := []
  questions : List Question := []
  currentMode : String := "analytics"
  currentQuestion : Nat := 0
  lastSessionResults : Option SessionData := none
  selectedAnswers : Nat → Option Nat := fun _ => none
  sessionHistory : List SessionData := []
  domainPerformance : List StatEntry := []
  sessionStartTime : Option Nat := none
  bookmarkedQuestions : List Nat := []
  incorrectlyAnswered : List Nat := []
  questionStartTime : Option Nat := none
  questionTimes : Nat → Nat := fun _ => 0

/-- `recordSession` (App.jsx lines 253-287): compute the score, the elapsed
minutes and the domain breakdown, build the session object, prepend it to
`sessionHistory` and fold the breakdown into `domainPerformance`.
`now` models `Date.now()`. -/
def recordSession (now : Nat) (s : AppState) : SessionData × AppState :=
  let score := calculateScore s.questions s.selectedAnswers
  let timeSpent : ℤ :=
    match s.sessionStartTime with
    | some start => if start = 0 then 0 else jsRound (((now : ℚ) - (start : ℚ)) / 60000)
    | none => 0
  let bd := domainBreakdown s.questions s.selectedAnswers
  let sessionData : SessionData :=
    { id := now
      date := now
      mode := s.currentMode
      totalQuestions := s.questions.length
      correctAnswers := score.correct
      percentage := score.percentage
      timeSpent := timeSpent
      domainBreakdown := bd
      questionTimes := s.questionTimes }
  (sessionData,
   { s with
      sessionHistory := sessionData :: s.sessionHistory
      domainPerformance := applyBreakdown s.domainPerformance bd })

/-- `handleSubmit` (App.jsx lines 247-251): record the session, remember the
result, switch to the results screen. -/
def handleSubmit (now : Nat) (s : AppState) : AppState :=
  let r := recordSession now s
  { r.2 with
      lastSessionResults := some r.1
      currentMode := "results" }

/-- JS `new Set(prev).add(x)`. -/
def jsSetAdd (l : List Nat) (x : Nat) : List Nat :=
  if l.contains x then l else l ++ [x]

/-- Default used to model an in-bounds JS index access `questions[i]`. -/
def defaultQuestion : Question :=
  { id := 0, question := "", options := [], correctAnswer := 0, domain := "", explanation := "" }

/-- The question currently displayed, `questions[currentQuestion]`. -/
def currentQ (s : AppState) : Question :=
  s.questions.getD s.currentQuestion defaultQuestion

/-- `handleAnswerSelect` (App.jsx lines 212-223): record the chosen option;
in practice modes additionally mark an incorrect answer as missed and
accumulate the per-question time.  `now` models `Date.now()`. -/
def handleAnswerSelect (now questionId answerIndex : Nat) (s : AppState) : AppState :=
  let s1 := { s with
    selectedAnswers := fun i => if i = questionId then some answerIndex else s.selectedAnswers i }
  if startsWithStr s.currentMode ("practice") then
    let isCorrect := (currentQ s).correctAnswer = answerIndex
    let s2 :=
      if isCorrect then s1
      else { s1 with incorrectlyAnswered := jsSetAdd s1.incorrectlyAnswered questionId }
    let timeSpent := (now - s.questionStartTime.getD 0 + 500) / 1000
    { s2 with
        questionTimes := fun i =>
          if i = questionId then s2.questionTimes i + timeSpent else s2.questionTimes i }
  else s1

/-- One click on the option button `answerIndex` of the currently displayed
question, including the button guard `disabled={isAnswered &&
currentMode.startsWith('practice')}` (App.jsx lines 890-896): a disabled
button never fires its click handler, so the submission is rejected and the
state is unchanged. -/
def answerOptionClick (now answerIndex : Nat) (s : AppState) : AppState :=
  let isAnswered := (s.selectedAnswers (currentQ s).id).isSome
  if isAnswered ∧ startsWithStr s.currentMode ("practice") then s
  else handleAnswerSelect now (currentQ s).id answerIndex s

/-- The weighted phase of `startExamMode` (App.jsx lines 174-189): for each
domain of the weight table, if the catalog has questions under that key,
push `round(examQuestionCount * weight)` of them from a shuffle of the
domain pool.  `shuf` models the comparator shuffle `sort(() => 0.5 -
Math.random())` — an arbitrary permutation. -/
def weightedPick (all : List Question) (examQuestionCount : Nat)
    (shuf : List Question → List Question) : List Question :=
  CISA_DOMAIN_WEIGHTS.foldl
    (fun acc dw =>
      let pool := all.filter (fun q => domainKey q = stripSpaces dw.1)
      if pool.isEmpty then acc
      else acc ++ (shuf pool).take (jsRound ((examQuestionCount : ℚ) * dw.2)).toNat)
    []

/-- The contribution of a single weight-table row to the weighted phase of
`startExamMode`: empty when the catalog has no question under the row's key,
otherwise `round(examQuestionCount * weight)` questions from a shuffle of
the row's domain pool. -/
def examPiece (all : List Question) (examQuestionCount : Nat)
    (shuf : List Question → List Question) (dw : String × ℚ) : List Question :=
  if (all.filter (fun q => domainKey q = stripSpaces dw.1)).isEmpty then []
  else
    (shuf (all.filter (fun q => domainKey q = stripSpaces dw.1))).take
      (jsRound ((examQuestionCount : ℚ) * dw.2)).toNat

/-- The top-up `while` loop of `startExamMode` (App.jsx lines 191-196),
with an explicit iteration budget `fuel` since the JS loop is unbounded:
while the selection is shorter than both the requested total and the
catalog, draw a random catalog question and push it unless its id is
already selected.  `rand k` models the `k`-th value of
`Math.floor(Math.random() * allQuestions.length)`; the returned flag is
`true` when the loop has terminated (its condition is false). -/
def topUpGo (all : List Question) (examQuestionCount : Nat) (rand : Nat → Nat) :
    Nat → Nat → List Question → List Question × Bool
  | 0, _, sel => (sel, decide ¬(sel.length < examQuestionCount ∧ sel.length < all.length))
  | fuel + 1, k, sel =>
    if sel.length < examQuestionCount ∧ sel.length < all.length then
      if sel.any (fun p => p.id = (all.getD (rand k % all.length) defaultQuestion).id) then
        topUpGo all examQuestionCount rand fuel (k + 1) sel
      else
        topUpGo all examQuestionCount rand fuel (k + 1)
          (sel ++ [all.getD (rand k % all.length) defaultQuestion])
    else (sel, true)

/-- The exam-set selection of `startExamMode` (App.jsx lines 174-206):
weighted phase, top-up loop, truncation to `examQuestionCount`, partial-exam
warning flag (the `alert` condition of lines 199-201), and the final global
shuffle applied at `setQuestions` (line 206). -/
def selectExamSet (all : List Question) (examQuestionCount : Nat)
    (shuf finalShuf : List Question → List Question) (rand : Nat → Nat) (fuel : Nat) :
    List Question × Bool :=
  let weighted := weightedPick all examQuestionCount shuf
  let topped := (topUpGo all examQuestionCount rand fuel 0 weighted).1
  let examQuestions := topped.take examQuestionCount
  (finalShuf examQuestions, decide (examQuestions.length < examQuestionCount))

/-- Number of catalog questions whose id is not yet selected; the decreasing
measure of the top-up loop. -/
def missingCount (all sel : List Question) : Nat :=
  (all.filter (fun q => ¬ sel.any (fun p => p.id = q.id))).length

/-- Truthiness of a raw option field (present and non-empty). -/
def optPresent (o : Option String) : Bool :=
  match o with
  | some s => s ≠ ""
  | none => false

/-! ### Concrete fixtures used to instantiate the verified statements -/

/-- A small sample question. -/
def mkQ (n : Nat) (d : String) : Question :=
  { id := n, question := "q", options := [("x"), ("y")], correctAnswer := 0,
    domain := d, explanation := "e" }

/-- A raw record with only option A present but correct letter D. -/
def rawOnlyA : RawQuestion :=
  { Question := "q", OptionA := some ("only option"), CorrectAnswer := some ("D"),
    id := some 1 }

/-- A raw record with all four options present and an invalid correct letter. -/
def rawAllOptionsZ : RawQuestion :=
  { Question := "q", OptionA := some ("a"), OptionB := some ("b"), OptionC := some ("c"),
    OptionD := some ("d"), CorrectAnswer := some ("Z"), id := some 2 }

/-- A raw record with a missing correct-answer letter. -/
def rawNoLetter : RawQuestion :=
  { Question := "q", OptionA := some ("a"), OptionB := some ("b"), id := some 3 }

/-- A practice-mode state whose displayed question has already been answered. -/
def practiceAnswered : AppState :=
  { questions := [mkQ 1 ("General")]
    currentMode := "practice"
    currentQuestion := 0
    selectedAnswers := fun i => if i = 1 then some 0 else none }

/-- An exam-mode state with an already-answered current question. -/
def examState : AppState :=
  { questions := [mkQ 1 ("General"), mkQ 2 ("General")]
    currentMode := "exam"
    currentQuestion := 0
    selectedAnswers := fun i => if i = 1 then some 1 else none }

/-- A two-question catalog. -/
def twoQuestions : List Question :=
  [mkQ 1 ("General"), mkQ 2 ("General")]

/-- A ten-question catalog. -/
def catalog10 : List Question :=
  (List.range 10).map (fun i => mkQ (i + 1) ("General"))

/-- A 150-question catalog whose five CISA domain pools have exactly the
weighted sizes 27, 27, 18, 39 and 39, with distinct ids. -/
def catalog150 : List Question :=
  ((List.range 27).map (fun i => mkQ (i + 1) ("Information System Auditing Process"))) ++
  ((List.range 27).map (fun i => mkQ (i + 28) ("Governance And Management Of It"))) ++
  ((List.range 18).map (fun i =>
    mkQ (i + 55) ("Information Systems Acquisition, Development And Implementation"))) ++
  ((List.range 39).map (fun i =>
    mkQ (i + 73) ("Information Systems Operations And Business Resilience"))) ++
  ((List.range 39).map (fun i => mkQ (i + 112) ("Protection Of Information Assets")))

/-! ### Lemmas about the additive aggregation -/

theorem perfAdd_absent (acc : List StatEntry) (e : StatEntry)
    (h : acc.any (fun p => p.1 = e.1) = false) :
    perfAdd acc e = acc ++ [e] := by
  unfold perfAdd
  rw [h]
  simp

theorem perfAdd_present (acc : List StatEntry) (e : StatEntry)
    (h : acc.any (fun p => p.1 = e.1) = true) :
    perfAdd acc e =
      acc.map (fun p => if p.1 = e.1 then (p.1, p.2.1 + e.2.1, p.2.2 + e.2.2) else p) := by
  unfold perfAdd
  rw [h]
  simp

theorem filter_key_singleton (acc : List StatEntry) (k : String)
    (hnd : keysNodup acc) (h : acc.any (fun p => p.1 = k) = true) :
    ∃ u : StatEntry, u.1 = k ∧ acc.filter (fun p => p.1 = k) = [u] := by
  induction acc with
  | nil => simp at h
  | cons a l ih =>
    have hnd2 : keysNodup l := by
      have := (List.nodup_cons.mp hnd).2
      exact this
    by_cases ha : a.1 = k
    · refine ⟨a, ha, ?_⟩
      have hnotin : a.1 ∉ l.map Prod.fst := (List.nodup_cons.mp hnd).1
      have hfil : l.filter (fun p => p.1 = k) = [] := by
        apply List.filter_eq_nil_iff.mpr
        intro x hx hxk
        apply hnotin
        rw [ha]
        simp only [decide_eq_true_eq] at hxk
        rw [← hxk]
        exact List.mem_map_of_mem Prod.fst hx
      simp [List.filter_cons, ha, hfil]
    · have h2 : l.any (fun p => p.1 = k) = true := by
        simp only [List.any_cons, Bool.or_eq_true] at h
        rcases h with h | h
        · exact absurd (by simpa using h) ha
        · exact h
      obtain ⟨u, hu1, hu2⟩ := ih hnd2 h2
      exact ⟨u, hu1, by simp [List.filter_cons, ha, hu2]⟩

theorem filter_perfAdd (acc : List StatEntry) (e : StatEntry) (d : String)
    (hnd : keysNodup acc) :
    (perfAdd acc e).filter (fun p => p.1 = d) =
      if e.1 = d then perfAdd (acc.filter (fun p => p.1 = d)) e
      else acc.filter (fun p => p.1 = d) := by
  by_cases h : acc.any (fun p => p.1 = e.1) = true
  · rw [perfAdd_present acc e h, List.filter_map]
    by_cases hd : e.1 = d
    · subst hd
      obtain ⟨u, hu1, hu2⟩ := filter_key_singleton acc e.1 hnd h
      have hfe :
          acc.filter
              ((fun p : StatEntry => decide (p.1 = e.1)) ∘
                fun p => if p.1 = e.1 then (p.1, p.2.1 + e.2.1, p.2.2 + e.2.2) else p) =
            acc.filter (fun p => p.1 = e.1) := by
        apply List.filter_congr
        intro x hx
        by_cases hx1 : x.1 = e.1 <;> simp [hx1]
      rw [hfe, hu2]
      rw [perfAdd_present [u] e (by simp [hu1])]
      simp [hu1]
    · have hfe :
          acc.filter
              ((fun p : StatEntry => decide (p.1 = d)) ∘
                fun p => if p.1 = e.1 then (p.1, p.2.1 + e.2.1, p.2.2 + e.2.2) else p) =
            acc.filter (fun p => p.1 = d) := by
        apply List.filter_congr
        intro x hx
        by_cases hx1 : x.1 = e.1 <;> simp [hx1]
      rw [hfe, if_neg hd]
      have hid : ∀ x ∈ acc.filter (fun p => p.1 = d),
          (if x.1 = e.1 then (x.1, x.2.1 + e.2.1, x.2.2 + e.2.2) else x) = x := by
        intro x hx
        have hxd : x.1 = d := by simpa using (List.mem_filter.mp hx).2
        have hne : ¬ x.1 = e.1 := fun hc => hd (by rw [← hc]; exact hxd)
        simp [hne]
      exact (List.map_congr_left hid).trans (by simp)
  · have hfalse : acc.any (fun p => p.1 = e.1) = false :=
      Bool.eq_false_iff.mpr h
    rw [perfAdd_absent acc e hfalse, List.filter_append]
    by_cases hd : e.1 = d
    · subst hd
      have hnil : acc.filter (fun p => p.1 = e.1) = [] := by
        apply List.filter_eq_nil_iff.mpr
        intro x hx
        have hfx := List.any_eq_false.mp hfalse x hx
        simpa using hfx
      rw [hnil]
      simp [perfAdd]
    · simp [List.filter_cons, hd, perfAdd]

theorem corrSum_cons (e : StatEntry) (l : List StatEntry) (d : String) :
    corrSum (e :: l) d = (if e.1 = d then e.2.1 else 0) + corrSum l d := by
  unfold corrSum
  by_cases h : e.1 = d <;> simp [List.filter_cons, h]

theorem totSum_cons (e : StatEntry) (l : List StatEntry) (d : String) :
    totSum (e :: l) d = (if e.1 = d then e.2.2 else 0) + totSum l d := by
  unfold totSum
  by_cases h : e.1 = d <;> simp [List.filter_cons, h]

theorem corrSum_perfAdd (acc : List StatEntry) (e : StatEntry) (d : String)
    (hnd : keysNodup acc) :
    corrSum (perfAdd acc e) d = corrSum acc d + (if e.1 = d then e.2.1 else 0) := by
  unfold corrSum
  rw [filter_perfAdd acc e d hnd]
  by_cases hd : e.1 = d
  · subst hd
    rw [if_pos rfl, if_pos rfl]
    by_cases h : acc.any (fun p => p.1 = e.1) = true
    · obtain ⟨u, hu1, hu2⟩ := filter_key_singleton acc e.1 hnd h
      rw [hu2, perfAdd_present _ _ (by simp [hu1])]
      simp [hu1]
    · have hfalse := Bool.eq_false_iff.mpr h
      have hnil : acc.filter (fun p => p.1 = e.1) = [] := by
        apply List.filter_eq_nil_iff.mpr
        intro x hx
        have hfx := List.any_eq_false.mp hfalse x hx
        simpa using hfx
      rw [hnil]
      simp [perfAdd]
  · rw [if_neg hd, if_neg hd]
    simp

theorem totSum_perfAdd (acc : List StatEntry) (e : StatEntry) (d : String)
    (hnd : keysNodup acc) :
    totSum (perfAdd acc e) d = totSum acc d + (if e.1 = d then e.2.2 else 0) := by
  unfold totSum
  rw [filter_perfAdd acc e d hnd]
  by_cases hd : e.1 = d
  · subst hd
    rw [if_pos rfl, if_pos rfl]
    by_cases h : acc.any (fun p => p.1 = e.1) = true
    · obtain ⟨u, hu1, hu2⟩ := filter_key_singleton acc e.1 hnd h
      rw [hu2, perfAdd_present _ _ (by simp [hu1])]
      simp [hu1]
    · have hfalse := Bool.eq_false_iff.mpr h
      have hnil : acc.filter (fun p => p.1 = e.1) = [] := by
        apply List.filter_eq_nil_iff.mpr
        intro x hx
        have hfx := List.any_eq_false.mp hfalse x hx
        simpa using hfx
      rw [hnil]
      simp [perfAdd]
  · rw [if_neg hd, if_neg hd]
    simp

theorem keysNodup_perfAdd (acc : List StatEntry) (e : StatEntry) (hnd : keysNodup acc) :
    keysNodup (perfAdd acc e) := by
  by_cases h : acc.any (fun p => p.1 = e.1) = true
  · rw [perfAdd_present acc e h]
    unfold keysNodup at *
    have hkeys :
        (acc.map (fun p => if p.1 = e.1 then (p.1, p.2.1 + e.2.1, p.2.2 + e.2.2) else p)).map
            Prod.fst = acc.map Prod.fst := by
      rw [List.map_map]
      apply List.map_congr_left
      intro x hx
      by_cases hx1 : x.1 = e.1 <;> simp [hx1]
    rw [hkeys]
    exact hnd
  · have hfalse := Bool.eq_false_iff.mpr h
    rw [perfAdd_absent acc e hfalse]
    unfold keysNodup at *
    rw [List.map_append, List.nodup_append]
    refine ⟨hnd, by simp, ?_⟩
    intro x hx hx2
    simp only [List.map_cons, List.map_nil, List.mem_singleton] at hx2
    subst hx2
    obtain ⟨p, hp, hp1⟩ := List.mem_map.mp hx
    have hfx := List.any_eq_false.mp hfalse p hp
    simp [hp1] at hfx

theorem sum_ite_key (acc : List StatEntry) (k : String) (c : Nat) :
    (acc.map (fun x => if x.1 = k then c else 0)).sum =
      c * (acc.filter (fun x => x.1 = k)).length := by
  induction acc with
  | nil => simp
  | cons a l ih =>
    by_cases ha : a.1 = k
    · simp only [List.map_cons, List.sum_cons, List.filter_cons, ha, ih]
      simp [Nat.mul_add]
      omega
    · simp [List.filter_cons, ha, ih]

theorem correctOfBd_perfAdd (acc : List StatEntry) (e : StatEntry) (hnd : keysNodup acc) :
    correctOfBd (perfAdd acc e) = correctOfBd acc + e.2.1 := by
  by_cases h : acc.any (fun p => p.1 = e.1) = true
  · rw [perfAdd_present acc e h]
    unfold correctOfBd
    rw [List.map_map]
    have hpt : ∀ x ∈ acc,
        ((fun p : StatEntry => p.2.1) ∘
          (fun p : StatEntry =>
            if p.1 = e.1 then (p.1, p.2.1 + e.2.1, p.2.2 + e.2.2) else p)) x =
          x.2.1 + (if x.1 = e.1 then e.2.1 else 0) := by
      intro x hx
      by_cases hx1 : x.1 = e.1 <;> simp [hx1]
    rw [List.map_congr_left hpt, List.sum_map_add, sum_ite_key]
    obtain ⟨u, hu1, hu2⟩ := filter_key_singleton acc e.1 hnd h
    rw [hu2]
    simp
  · have hfalse := Bool.eq_false_iff.mpr h
    rw [perfAdd_absent acc e hfalse]
    unfold correctOfBd
    simp

theorem totalOfBd_perfAdd (acc : List StatEntry) (e : StatEntry) (hnd : keysNodup acc) :
    totalOfBd (perfAdd acc e) = totalOfBd acc + e.2.2 := by
  by_cases h : acc.any (fun p => p.1 = e.1) = true
  · rw [perfAdd_present acc e h]
    unfold totalOfBd
    rw [List.map_map]
    have hpt : ∀ x ∈ acc,
        ((fun p : StatEntry => p.2.2) ∘
          (fun p : StatEntry =>
            if p.1 = e.1 then (p.1, p.2.1 + e.2.1, p.2.2 + e.2.2) else p)) x =
          x.2.2 + (if x.1 = e.1 then e.2.2 else 0) := by
      intro x hx
      by_cases hx1 : x.1 = e.1 <;> simp [hx1]
    rw [List.map_congr_left hpt, List.sum_map_add, sum_ite_key]
    obtain ⟨u, hu1, hu2⟩ := filter_key_singleton acc e.1 hnd h
    rw [hu2]
    simp
  · have hfalse := Bool.eq_false_iff.mpr h
    rw [perfAdd_absent acc e hfalse]
    unfold totalOfBd
    simp

theorem keysNodup_applyBreakdown (perf bd : List StatEntry) (hnd : keysNodup perf) :
    keysNodup (applyBreakdown perf bd) := by
  induction bd generalizing perf with
  | nil => exact hnd
  | cons e bd ih => exact ih _ (keysNodup_perfAdd _ _ hnd)

theorem corrSum_applyBreakdown (perf bd : List StatEntry) (d : String)
    (hnd : keysNodup perf) :
    corrSum (applyBreakdown perf bd) d = corrSum perf d + corrSum bd d := by
  induction bd generalizing perf with
  | nil => simp [applyBreakdown, corrSum]
  | cons e bd ih =>
    unfold applyBreakdown at *
    simp only [List.foldl_cons]
    rw [ih _ (keysNodup_perfAdd _ _ hnd), corrSum_perfAdd _ _ _ hnd, corrSum_cons]
    omega

theorem totSum_applyBreakdown (perf bd : List StatEntry) (d : String)
    (hnd : keysNodup perf) :
    totSum (applyBreakdown perf bd) d = totSum perf d + totSum bd d := by
  induction bd generalizing perf with
  | nil => simp [applyBreakdown, totSum]
  | cons e bd ih =>
    unfold applyBreakdown at *
    simp only [List.foldl_cons]
    rw [ih _ (keysNodup_perfAdd _ _ hnd), totSum_perfAdd _ _ _ hnd, totSum_cons]
    omega

theorem filter_applyBreakdown_notin (perf bd : List StatEntry) (d : String)
    (hnd : keysNodup perf) (hd : ∀ e ∈ bd, e.1 ≠ d) :
    (applyBreakdown perf bd).filter (fun p => p.1 = d) = perf.filter (fun p => p.1 = d) := by
  induction bd generalizing perf with
  | nil => rfl
  | cons e bd ih =>
    unfold applyBreakdown at *
    simp only [List.foldl_cons]
    rw [ih (perfAdd perf e) (keysNodup_perfAdd _ _ hnd)
      (fun x hx => hd x (List.mem_cons_of_mem e hx))]
    rw [filter_perfAdd _ _ _ hnd, if_neg (hd e (List.mem_cons_self e bd))]

theorem corrSum_foldl_sessions (perf0 : List StatEntry)
    (sessions : List (List StatEntry)) (d : String) (hnd : keysNodup perf0) :
    corrSum (sessions.foldl applyBreakdown perf0) d =
      corrSum perf0 d + (sessions.map (fun b => corrSum b d)).sum := by
  induction sessions generalizing perf0 with
  | nil => simp
  | cons b sessions ih =>
    simp only [List.foldl_cons, List.map_cons, List.sum_cons]
    rw [ih _ (keysNodup_applyBreakdown _ _ hnd), corrSum_applyBreakdown _ _ _ hnd]
    omega

theorem totSum_foldl_sessions (perf0 : List StatEntry)
    (sessions : List (List StatEntry)) (d : String) (hnd : keysNodup perf0) :
    totSum (sessions.foldl applyBreakdown perf0) d =
      totSum perf0 d + (sessions.map (fun b => totSum b d)).sum := by
  induction sessions generalizing perf0 with
  | nil => simp
  | cons b sessions ih =>
    simp only [List.foldl_cons, List.map_cons, List.sum_cons]
    rw [ih _ (keysNodup_applyBreakdown _ _ hnd), totSum_applyBreakdown _ _ _ hnd]
    omega

theorem keysNodup_domainBreakdown_aux (qs : List Question) (sel : Nat → Option Nat)
    (acc : List StatEntry) (hnd : keysNodup acc) :
    keysNodup (qs.foldl
      (fun a q =>
        perfAdd a (q.domain, if sel q.id = some q.correctAnswer then 1 else 0, 1)) acc) := by
  induction qs generalizing acc with
  | nil => exact hnd
  | cons q qs ih => exact ih _ (keysNodup_perfAdd _ _ hnd)

theorem keysNodup_domainBreakdown (qs : List Question) (sel : Nat → Option Nat) :
    keysNodup (domainBreakdown qs sel) :=
  keysNodup_domainBreakdown_aux qs sel [] (by simp [keysNodup])

theorem totalOfBd_domainBreakdown_aux (qs : List Question) (sel : Nat → Option Nat)
    (acc : List StatEntry) (hnd : keysNodup acc) :
    totalOfBd (qs.foldl
      (fun a q =>
        perfAdd a (q.domain, if sel q.id = some q.correctAnswer then 1 else 0, 1)) acc) =
      totalOfBd acc + qs.length := by
  induction qs generalizing acc with
  | nil => simp
  | cons q qs ih =>
    simp only [List.foldl_cons, List.length_cons]
    rw [ih _ (keysNodup_perfAdd _ _ hnd), totalOfBd_perfAdd _ _ hnd]
    show totalOfBd acc + 1 + qs.length = totalOfBd acc + (qs.length + 1)
    omega

theorem totalOfBd_domainBreakdown (qs : List Question) (sel : Nat → Option Nat) :
    totalOfBd (domainBreakdown qs sel) = qs.length := by
  have h := totalOfBd_domainBreakdown_aux qs sel [] (by simp [keysNodup])
  simpa [domainBreakdown, totalOfBd] using h

theorem correctOfBd_domainBreakdown_aux (qs : List Question) (sel : Nat → Option Nat)
    (acc : List StatEntry) (hnd : keysNodup acc) :
    correctOfBd (qs.foldl
      (fun a q =>
        perfAdd a (q.domain, if sel q.id = some q.correctAnswer then 1 else 0, 1)) acc) =
      correctOfBd acc + (qs.filter (fun q => sel q.id = some q.correctAnswer)).length := by
  induction qs generalizing acc with
  | nil => simp
  | cons q qs ih =>
    simp only [List.foldl_cons, List.filter_cons]
    rw [ih _ (keysNodup_perfAdd _ _ hnd), correctOfBd_perfAdd _ _ hnd]
    show correctOfBd acc + (if sel q.id = some q.correctAnswer then 1 else 0) + _ = _
    by_cases hq : sel q.id = some q.correctAnswer
    · simp only [hq, if_pos rfl]
      simp [hq]
      omega
    · simp [hq]

theorem correctOfBd_domainBreakdown (qs : List Question) (sel : Nat → Option Nat) :
    correctOfBd (domainBreakdown qs sel) =
      (qs.filter (fun q => sel q.id = some q.correctAnswer)).length := by
  have h := correctOfBd_domainBreakdown_aux qs sel [] (by simp [keysNodup])
  simpa [domainBreakdown, correctOfBd] using h

/-! ### Lemmas about the exam top-up loop -/

theorem topUpGo_not_cond (all : List Question) (cnt : Nat) (rand : Nat → Nat)
    (fuel k : Nat) (sel : List Question)
    (h : ¬(sel.length < cnt ∧ sel.length < all.length)) :
    topUpGo all cnt rand fuel k sel = (sel, true) := by
  cases fuel with
  | zero => simp [topUpGo, h]
  | succ fuel => simp [topUpGo, h]

theorem topUpGo_succ_skip (all : List Question) (cnt : Nat) (rand : Nat → Nat)
    (fuel k : Nat) (sel : List Question)
    (hc : sel.length < cnt ∧ sel.length < all.length)
    (ha : sel.any (fun p =>
      p.id = (all.getD (rand k % all.length) defaultQuestion).id) = true) :
    topUpGo all cnt rand (fuel + 1) k sel = topUpGo all cnt rand fuel (k + 1) sel := by
  simp only [topUpGo]
  rw [if_pos hc, if_pos ha]

theorem topUpGo_succ_add (all : List Question) (cnt : Nat) (rand : Nat → Nat)
    (fuel k : Nat) (sel : List Question)
    (hc : sel.length < cnt ∧ sel.length < all.length)
    (ha : sel.any (fun p =>
      p.id = (all.getD (rand k % all.length) defaultQuestion).id) = false) :
    topUpGo all cnt rand (fuel + 1) k sel =
      topUpGo all cnt rand fuel (k + 1)
        (sel ++ [all.getD (rand k % all.length) defaultQuestion]) := by
  simp only [topUpGo]
  rw [if_pos hc, if_neg (by rw [ha]; exact Bool.false_ne_true)]

theorem topUpGo_done_not_cond (all : List Question) (cnt : Nat) (rand : Nat → Nat) :
    ∀ fuel k sel, (topUpGo all cnt rand fuel k sel).2 = true →
      ¬((topUpGo all cnt rand fuel k sel).1.length < cnt ∧
        (topUpGo all cnt rand fuel k sel).1.length < all.length)
  | 0, k, sel, h => by
    simp only [topUpGo] at h ⊢
    exact of_decide_eq_true h
  | fuel + 1, k, sel, h => by
    by_cases hc : sel.length < cnt ∧ sel.length < all.length
    · by_cases ha : sel.any (fun p =>
          p.id = (all.getD (rand k % all.length) defaultQuestion).id) = true
      · rw [topUpGo_succ_skip all cnt rand fuel k sel hc ha] at h ⊢
        exact topUpGo_done_not_cond all cnt rand fuel (k + 1) sel h
      · have ha2 := Bool.eq_false_iff.mpr ha
        rw [topUpGo_succ_add all cnt rand fuel k sel hc ha2] at h ⊢
        exact topUpGo_done_not_cond all cnt rand fuel (k + 1) _ h
    · rw [topUpGo_not_cond all cnt rand (fuel + 1) k sel hc] at h ⊢
      exact hc

theorem topUpGo_mono (all : List Question) (cnt : Nat) (rand : Nat → Nat) :
    ∀ fuel fuel' k sel, fuel ≤ fuel' →
      (topUpGo all cnt rand fuel k sel).2 = true →
      (topUpGo all cnt rand fuel' k sel).2 = true
  | 0, fuel', k, sel, hle, h => by
    have hc : ¬(sel.length < cnt ∧ sel.length < all.length) := by
      simp only [topUpGo] at h
      exact of_decide_eq_true h
    rw [topUpGo_not_cond all cnt rand fuel' k sel hc]
  | fuel + 1, fuel', k, sel, hle, h => by
    by_cases hc : sel.length < cnt ∧ sel.length < all.length
    · obtain ⟨f2, rfl⟩ : ∃ f2, fuel' = f2 + 1 := ⟨fuel' - 1, by omega⟩
      by_cases ha : sel.any (fun p =>
          p.id = (all.getD (rand k % all.length) defaultQuestion).id) = true
      · rw [topUpGo_succ_skip all cnt rand fuel k sel hc ha] at h
        rw [topUpGo_succ_skip all cnt rand f2 k sel hc ha]
        exact topUpGo_mono all cnt rand fuel f2 (k + 1) sel (by omega) h
      · have ha2 := Bool.eq_false_iff.mpr ha
        rw [topUpGo_succ_add all cnt rand fuel k sel hc ha2] at h
        rw [topUpGo_succ_add all cnt rand f2 k sel hc ha2]
        exact topUpGo_mono all cnt rand fuel f2 (k + 1) _ (by omega) h
    · rw [topUpGo_not_cond all cnt rand fuel' k sel hc]

theorem topUpGo_subperm (all : List Question) (cnt : Nat) (rand : Nat → Nat) :
    ∀ fuel k sel, sel.Subperm all → ((topUpGo all cnt rand fuel k sel).1).Subperm all
  | 0, k, sel, h => h
  | fuel + 1, k, sel, h => by
    by_cases hc : sel.length < cnt ∧ sel.length < all.length
    · by_cases ha : sel.any (fun p =>
          p.id = (all.getD (rand k % all.length) defaultQuestion).id) = true
      · rw [topUpGo_succ_skip all cnt rand fuel k sel hc ha]
        exact topUpGo_subperm all cnt rand fuel (k + 1) sel h
      · have ha2 := Bool.eq_false_iff.mpr ha
        rw [topUpGo_succ_add all cnt rand fuel k sel hc ha2]
        apply topUpGo_subperm
        have hn : 0 < all.length := lt_of_le_of_lt (Nat.zero_le _) hc.2
        have hidx : rand k % all.length < all.length := Nat.mod_lt _ hn
        have hq : all.getD (rand k % all.length) defaultQuestion ∈ all := by
          rw [List.getD_eq_getElem?_getD, List.getElem?_eq_getElem hidx]
          exact List.getElem_mem hidx
        have hnotin : all.getD (rand k % all.length) defaultQuestion ∉ sel := by
          intro hmem
          have hfx := List.any_eq_false.mp ha2 _ hmem
          simp at hfx
        rw [List.subperm_ext_iff] at h ⊢
        intro x hx
        rw [List.count_append]
        rcases List.mem_append.mp hx with hx2 | hx2
        · by_cases hxq : x = all.getD (rand k % all.length) defaultQuestion
          · subst hxq
            exact absurd hx2 hnotin
          · have hcnt0 : List.count x [all.getD (rand k % all.length) defaultQuestion] = 0 :=
              List.count_eq_zero.mpr (by simpa using hxq)
            rw [hcnt0]
            simpa using h x hx2
        · have hxq : x = all.getD (rand k % all.length) defaultQuestion := by
            simpa using hx2
          subst hxq
          have hcnt0 : List.count (all.getD (rand k % all.length) defaultQuestion) sel = 0 :=
            List.count_eq_zero.mpr hnotin
          have hcnt1 : 0 < List.count (all.getD (rand k % all.length) defaultQuestion) all :=
            List.count_pos_iff.mpr hq
          rw [hcnt0]
          simpa using hcnt1
    · rw [topUpGo_not_cond all cnt rand (fuel + 1) k sel hc]
      exact h

theorem filter_length_mono {α : Type} (p q : α → Bool) (l : List α)
    (h : ∀ x, q x = true → p x = true) :
    (l.filter q).length ≤ (l.filter p).length := by
  induction l with
  | nil => simp
  | cons a l ih =>
    by_cases hqa : q a = true
    · rw [List.filter_cons, List.filter_cons, if_pos hqa, if_pos (h a hqa)]
      simpa using ih
    · rw [List.filter_cons, if_neg hqa]
      refine le_trans ih ?_
      rw [List.filter_cons]
      split
      · simp
      · simp

theorem filter_length_lt {α : Type} (p q : α → Bool) (l : List α) (a : α)
    (h : ∀ x, q x = true → p x = true) (hmem : a ∈ l) (hpa : p a = true)
    (hqa : q a = false) :
    (l.filter q).length < (l.filter p).length := by
  induction l with
  | nil => simp at hmem
  | cons b l ih =>
    rcases List.mem_cons.mp hmem with rfl | hmem2
    · rw [List.filter_cons, List.filter_cons, if_pos hpa,
        if_neg (by rw [hqa]; exact Bool.false_ne_true)]
      exact Nat.lt_succ_of_le (filter_length_mono p q l h)
    · by_cases hb : q b = true
      · rw [List.filter_cons, List.filter_cons, if_pos hb, if_pos (h b hb)]
        simpa using ih hmem2
      · rw [List.filter_cons (p := q), if_neg hb]
        refine lt_of_lt_of_le (ih hmem2) ?_
        rw [List.filter_cons]
        split
        · simp
        · simp

theorem missingCount_le (all sel : List Question) : missingCount all sel ≤ all.length :=
  List.length_filter_le _ _

theorem missingCount_add (all sel : List Question) (q : Question) (hq : q ∈ all)
    (ha : sel.any (fun p => p.id = q.id) = false) :
    missingCount all (sel ++ [q]) < missingCount all sel := by
  unfold missingCount
  apply filter_length_lt _ _ _ q
  · intro x hx
    simp only [decide_eq_true_eq, List.any_append, Bool.or_eq_true, not_or] at hx ⊢
    exact hx.1
  · exact hq
  · simp only [decide_eq_true_eq]
    intro hcon
    rw [List.any_eq_true] at hcon
    obtain ⟨p, hp, hpq⟩ := hcon
    have hfp := List.any_eq_false.mp ha p hp
    simp only [decide_eq_true_eq] at hfp hpq
    exact hfp hpq
  · have hmem : ((sel ++ [q]).any (fun p => p.id = q.id)) = true := by
      rw [List.any_append]
      simp
    simp [hmem]

theorem missingCount_zero_not_cond (all sel : List Question) (cnt : Nat)
    (hnd : (all.map Question.id).Nodup) (h0 : missingCount all sel = 0) :
    ¬(sel.length < cnt ∧ sel.length < all.length) := by
  unfold missingCount at h0
  rw [List.length_eq_zero] at h0
  have hall : ∀ q ∈ all, sel.any (fun p => p.id = q.id) = true := by
    intro q hq
    by_contra hqc
    have hmem : q ∈ all.filter (fun q => ¬ sel.any (fun p => p.id = q.id)) := by
      rw [List.mem_filter]
      exact ⟨hq, by simpa using hqc⟩
    rw [h0] at hmem
    simp at hmem
  have hsub : (all.map Question.id) ⊆ (sel.map Question.id) := by
    intro x hx
    obtain ⟨q, hq, rfl⟩ := List.mem_map.mp hx
    obtain ⟨p, hp, hpq⟩ := List.any_eq_true.mp (hall q hq)
    simp only [decide_eq_true_eq] at hpq
    rw [← hpq]
    exact List.mem_map_of_mem Question.id hp
  have hlen : all.length ≤ sel.length := by
    calc all.length = (all.map Question.id).length := (List.length_map _ _).symm
    _ = (all.map Question.id).toFinset.card := (List.toFinset_card_of_nodup hnd).symm
    _ ≤ (sel.map Question.id).toFinset.card := by
        apply Finset.card_le_card
        intro x hx
        simp only [List.mem_toFinset] at hx ⊢
        exact hsub hx
    _ ≤ (sel.map Question.id).length := List.toFinset_card_le _
    _ = sel.length := List.length_map _ _
  intro hcon
  omega

theorem topUpInner (all : List Question) (cnt m : Nat)
    (OIH : ∀ k sel, missingCount all sel ≤ m →
      (topUpGo all cnt (fun x => x) (m * all.length) k sel).2 = true) :
    ∀ d k sel, missingCount all sel ≤ m + 1 →
      (∃ j, j < d ∧ sel.any (fun p =>
        p.id = (all.getD ((k + j) % all.length) defaultQuestion).id) = false) →
      (topUpGo all cnt (fun x => x) (m * all.length + d) k sel).2 = true := by
  intro d
  induction d with
  | zero =>
    rintro k sel _ ⟨j, hj, _⟩
    omega
  | succ d ih =>
    rintro k sel hm ⟨j, hj, hjw⟩
    by_cases hc : sel.length < cnt ∧ sel.length < all.length
    · by_cases ha : sel.any (fun p =>
          p.id = (all.getD (k % all.length) defaultQuestion).id) = true
      · have hstep := topUpGo_succ_skip all cnt (fun x => x) (m * all.length + d) k sel hc ha
        rw [show m * all.length + (d + 1) = m * all.length + d + 1 from rfl, hstep]
        apply ih (k + 1) sel hm
        have hj1 : 1 ≤ j := by
          rcases Nat.eq_zero_or_pos j with rfl | hpos
          · rw [Nat.add_zero, ha] at hjw
            simp at hjw
          · exact hpos
        refine ⟨j - 1, by omega, ?_⟩
        have harith : k + 1 + (j - 1) = k + j := by omega
        rw [harith]
        exact hjw
      · have ha2 := Bool.eq_false_iff.mpr ha
        have hstep := topUpGo_succ_add all cnt (fun x => x) (m * all.length + d) k sel hc ha2
        rw [show m * all.length + (d + 1) = m * all.length + d + 1 from rfl, hstep]
        have hn : 0 < all.length := lt_of_le_of_lt (Nat.zero_le _) hc.2
        have hidx : k % all.length < all.length := Nat.mod_lt _ hn
        have hq : all.getD (k % all.length) defaultQuestion ∈ all := by
          rw [List.getD_eq_getElem?_getD, List.getElem?_eq_getElem hidx]
          exact List.getElem_mem hidx
        have hmiss := missingCount_add all sel _ hq ha2
        have hm2 : missingCount all (sel ++ [all.getD (k % all.length) defaultQuestion]) ≤ m := by
          omega
        exact topUpGo_mono all cnt (fun x => x) (m * all.length) (m * all.length + d) (k + 1) _
          (by omega) (OIH (k + 1) _ hm2)
    · rw [topUpGo_not_cond all cnt (fun x => x) (m * all.length + (d + 1)) k sel hc]

theorem topUpOuter (all : List Question) (cnt : Nat)
    (hnd : (all.map Question.id).Nodup) :
    ∀ m k sel, missingCount all sel ≤ m →
      (topUpGo all cnt (fun x => x) (m * all.length) k sel).2 = true := by
  intro m
  induction m with
  | zero =>
    intro k sel h0
    have hc := missingCount_zero_not_cond all sel cnt hnd (Nat.le_zero.mp h0)
    rw [topUpGo_not_cond all cnt (fun x => x) (0 * all.length) k sel hc]
  | succ m ih =>
    intro k sel hm
    by_cases hm2 : missingCount all sel ≤ m
    · exact topUpGo_mono all cnt (fun x => x) (m * all.length) ((m + 1) * all.length) k sel
        (Nat.mul_le_mul_right _ (Nat.le_succ m)) (ih k sel hm2)
    · have hpos : 0 < missingCount all sel := by omega
      unfold missingCount at hpos
      obtain ⟨q, hqf⟩ := List.exists_mem_of_length_pos hpos
      rw [List.mem_filter] at hqf
      obtain ⟨hqall, hqsel⟩ := hqf
      have hqsel2 : sel.any (fun p => p.id = q.id) = false := by
        simpa using hqsel
      obtain ⟨i, hi, hieq⟩ := List.mem_iff_getElem.mp hqall
      have hn : 0 < all.length := lt_of_le_of_lt (Nat.zero_le i) hi
      have hkn : k % all.length < all.length := Nat.mod_lt _ hn
      have hjlt : (i + (all.length - k % all.length)) % all.length < all.length :=
        Nat.mod_lt _ hn
      have hsum : k % all.length + (i + (all.length - k % all.length)) = i + all.length := by
        omega
      have hmod : (k + (i + (all.length - k % all.length)) % all.length) % all.length = i := by
        rw [Nat.add_mod k _ all.length, Nat.mod_eq_of_lt hjlt, Nat.add_mod_mod, hsum,
          Nat.add_mod_right, Nat.mod_eq_of_lt hi]
      rw [Nat.succ_mul]
      apply topUpInner all cnt m ih all.length k sel (by omega)
      refine ⟨(i + (all.length - k % all.length)) % all.length, hjlt, ?_⟩
      rw [hmod, List.getD_eq_getElem?_getD, List.getElem?_eq_getElem hi]
      simpa [hieq] using hqsel2

theorem topUpGo_roundRobin_done (all : List Question) (cnt : Nat)
    (hnd : (all.map Question.id).Nodup) (k : Nat) (sel : List Question) :
    (topUpGo all cnt (fun x => x) (all.length * all.length) k sel).2 = true :=
  topUpOuter all cnt hnd all.length k sel (missingCount_le all sel)

/-! ### Lemmas about the weighted phase of the exam selection -/

theorem subperm_map {α β : Type} (f : α → β) {l r : List α} (h : l.Subperm r) :
    (l.map f).Subperm (r.map f) := by
  obtain ⟨m, hp, hs⟩ := h
  exact ⟨m.map f, hp.map f, hs.map f⟩

theorem nodup_of_subperm {α : Type} {l r : List α} (h : l.Subperm r) (hr : r.Nodup) :
    l.Nodup := by
  obtain ⟨m, hp, hs⟩ := h
  exact hp.nodup_iff.mp (hs.nodup hr)

theorem weightedFold_eq_join (all : List Question) (n : Nat)
    (shuf : List Question → List Question) :
    ∀ (W : List (String × ℚ)) (acc : List Question),
      W.foldl (fun acc dw =>
        let pool := all.filter (fun q => domainKey q = stripSpaces dw.1)
        if pool.isEmpty then acc
        else acc ++ (shuf pool).take (jsRound ((n : ℚ) * dw.2)).toNat) acc =
      acc ++ (W.map (examPiece all n shuf)).flatten
  | [], acc => by simp
  | dw :: W, acc => by
    simp only [List.foldl_cons, List.map_cons, List.flatten_cons]
    rw [weightedFold_eq_join all n shuf W]
    by_cases hp : (all.filter (fun q => domainKey q = stripSpaces dw.1)).isEmpty
    · simp [examPiece, hp]
    · simp [examPiece, hp]

theorem weightedPick_eq_join (all : List Question) (n : Nat)
    (shuf : List Question → List Question) :
    weightedPick all n shuf = (CISA_DOMAIN_WEIGHTS.map (examPiece all n shuf)).flatten := by
  unfold weightedPick
  rw [weightedFold_eq_join all n shuf CISA_DOMAIN_WEIGHTS []]
  simp

theorem examPiece_key (all : List Question) (n : Nat)
    (shuf : List Question → List Question) (dw : String × ℚ)
    (hshuf : ∀ l, (shuf l).Perm l) :
    ∀ x ∈ examPiece all n shuf dw, domainKey x = stripSpaces dw.1 := by
  intro x hx
  unfold examPiece at hx
  split at hx
  · simp at hx
  · have hx2 : x ∈ shuf (all.filter (fun q => domainKey q = stripSpaces dw.1)) :=
      (List.take_sublist _ _).subset hx
    have hx3 : x ∈ all.filter (fun q => domainKey q = stripSpaces dw.1) :=
      (hshuf _).mem_iff.mp hx2
    simpa using (List.mem_filter.mp hx3).2

theorem examPiece_subperm (all : List Question) (n : Nat)
    (shuf : List Question → List Question) (dw : String × ℚ)
    (hshuf : ∀ l, (shuf l).Perm l) :
    (examPiece all n shuf dw).Subperm
      (all.filter (fun q => domainKey q = stripSpaces dw.1)) := by
  unfold examPiece
  split
  · exact List.nil_subperm
  · exact ((List.take_sublist _ _).subperm).trans (hshuf _).subperm

theorem examPiece_length (all : List Question) (n : Nat)
    (shuf : List Question → List Question) (dw : String × ℚ)
    (hshuf : ∀ l, (shuf l).Perm l)
    (hlen : (jsRound ((n : ℚ) * dw.2)).toNat ≤
      (all.filter (fun q => domainKey q = stripSpaces dw.1)).length) :
    (examPiece all n shuf dw).length = (jsRound ((n : ℚ) * dw.2)).toNat := by
  unfold examPiece
  split
  · rename_i hempty
    rw [List.isEmpty_iff] at hempty
    rw [hempty] at hlen
    simp only [List.length_nil, Nat.le_zero] at hlen
    simp [hlen]
  · rw [List.length_take, (hshuf _).length_eq]
    omega

theorem jsRound_150_18 : (jsRound ((150 : ℚ) * (18 / 100))).toNat = 27 := by
  norm_num [jsRound]
  rfl

theorem jsRound_150_12 : (jsRound ((150 : ℚ) * (12 / 100))).toNat = 18 := by
  norm_num [jsRound]
  rfl

theorem jsRound_150_26 : (jsRound ((150 : ℚ) * (26 / 100))).toNat = 39 := by
  norm_num [jsRound]
  rfl

theorem joinPieces_length (all : List Question) (n : Nat)
    (shuf : List Question → List Question) (hshuf : ∀ l, (shuf l).Perm l) :
    ∀ W : List (String × ℚ),
      (∀ dw ∈ W, (jsRound ((n : ℚ) * dw.2)).toNat ≤
        (all.filter (fun q => domainKey q = stripSpaces dw.1)).length) →
      ((W.map (examPiece all n shuf)).flatten).length =
        (W.map (fun dw => (jsRound ((n : ℚ) * dw.2)).toNat)).sum
  | [], _ => by simp
  | dw :: W, h => by
    simp only [List.map_cons, List.flatten_cons, List.length_append, List.sum_cons]
    rw [examPiece_length all n shuf dw hshuf (h dw (List.mem_cons_self dw W)),
      joinPieces_length all n shuf hshuf W (fun x hx => h x (List.mem_cons_of_mem dw hx))]

theorem joinPieces_count (all : List Question) (n : Nat)
    (shuf : List Question → List Question) (hshuf : ∀ l, (shuf l).Perm l) :
    ∀ (W : List (String × ℚ)), ((W.map (fun dw => stripSpaces dw.1)).Nodup) →
      ∀ x : Question, ((W.map (examPiece all n shuf)).flatten).count x ≤ all.count x
  | [], _, x => by simp
  | dw :: W, hW, x => by
    simp only [List.map_cons, List.flatten_cons, List.count_append]
    have hnd2 : (W.map (fun dw => stripSpaces dw.1)).Nodup := (List.nodup_cons.mp hW).2
    by_cases hx : domainKey x = stripSpaces dw.1
    · have htail : ((W.map (examPiece all n shuf)).flatten).count x = 0 := by
        rw [List.count_eq_zero]
        intro hmem
        rw [List.mem_flatten] at hmem
        obtain ⟨l, hl, hxl⟩ := hmem
        obtain ⟨dw2, hdw2, rfl⟩ := List.mem_map.mp hl
        have hkey := examPiece_key all n shuf dw2 hshuf x hxl
        apply (List.nodup_cons.mp hW).1
        show stripSpaces dw.1 ∈ List.map (fun dw => stripSpaces dw.1) W
        rw [← hx, hkey]
        exact List.mem_map_of_mem _ hdw2
      rw [htail]
      have hsp := examPiece_subperm all n shuf dw hshuf
      calc (examPiece all n shuf dw).count x + 0
          = (examPiece all n shuf dw).count x := by omega
      _ ≤ (all.filter (fun q => domainKey q = stripSpaces dw.1)).count x := hsp.count_le x
      _ ≤ all.count x := (List.filter_sublist all).count_le x
    · have hhead : (examPiece all n shuf dw).count x = 0 := by
        rw [List.count_eq_zero]
        intro hmem
        exact hx (examPiece_key all n shuf dw hshuf x hmem)
      rw [hhead]
      simpa using joinPieces_count all n shuf hshuf W hnd2 x

theorem weightedPick_subperm (all : List Question) (n : Nat)
    (shuf : List Question → List Question) (hshuf : ∀ l, (shuf l).Perm l)
    (hW : (CISA_DOMAIN_WEIGHTS.map (fun dw => stripSpaces dw.1)).Nodup) :
    (weightedPick all n shuf).Subperm all := by
  rw [weightedPick_eq_join, List.subperm_ext_iff]
  intro x hx
  exact joinPieces_count all n shuf hshuf CISA_DOMAIN_WEIGHTS hW x

theorem filter_joinPieces (all : List Question) (n : Nat)
    (shuf : List Question → List Question) (hshuf : ∀ l, (shuf l).Perm l) :
    ∀ (W : List (String × ℚ)), ((W.map (fun dw => stripSpaces dw.1)).Nodup) →
      ∀ dw ∈ W, ((W.map (examPiece all n shuf)).flatten).filter
          (fun q => domainKey q = stripSpaces dw.1) = examPiece all n shuf dw
  | [], _, dw, hdw => by simp at hdw
  | dw2 :: W, hW, dw, hdw => by
    simp only [List.map_cons, List.flatten_cons, List.filter_append]
    have hnd2 : (W.map (fun dw => stripSpaces dw.1)).Nodup := (List.nodup_cons.mp hW).2
    rcases List.mem_cons.mp hdw with rfl | hdw2
    · have hself : (examPiece all n shuf dw).filter
          (fun q => domainKey q = stripSpaces dw.1) = examPiece all n shuf dw := by
        apply List.filter_eq_self.mpr
        intro a ha
        simpa using examPiece_key all n shuf dw hshuf a ha
      have hrest : ((W.map (examPiece all n shuf)).flatten).filter
          (fun q => domainKey q = stripSpaces dw.1) = [] := by
        apply List.filter_eq_nil_iff.mpr
        intro a ha
        rw [List.mem_flatten] at ha
        obtain ⟨l, hl, hal⟩ := ha
        obtain ⟨dw3, hdw3, rfl⟩ := List.mem_map.mp hl
        have hkey := examPiece_key all n shuf dw3 hshuf a hal
        simp only [decide_eq_true_eq]
        intro hcon
        apply (List.nodup_cons.mp hW).1
        show stripSpaces dw.1 ∈ List.map (fun dw => stripSpaces dw.1) W
        rw [← hcon, hkey]
        exact List.mem_map_of_mem _ hdw3
      rw [hself, hrest, List.append_nil]
    · have hne : stripSpaces dw.1 ≠ stripSpaces dw2.1 := by
        intro hcon
        apply (List.nodup_cons.mp hW).1
        show stripSpaces dw2.1 ∈ List.map (fun dw => stripSpaces dw.1) W
        rw [← hcon]
        exact List.mem_map_of_mem _ hdw2
      have hhead : (examPiece all n shuf dw2).filter
          (fun q => domainKey q = stripSpaces dw.1) = [] := by
        apply List.filter_eq_nil_iff.mpr
        intro a ha
        have hkey := examPiece_key all n shuf dw2 hshuf a ha
        simp only [decide_eq_true_eq]
        intro hcon
        exact hne (by rw [← hcon, hkey])
      rw [hhead, List.nil_append]
      exact filter_joinPieces all n shuf hshuf W hnd2 dw hdw2

/-! ### Loader lemmas -/

theorem correctIndexOfLetter_le_three (c : Option String) : correctIndexOfLetter c ≤ 3 := by
  unfold correctIndexOfLetter jsIndexOf
  by_cases hA : rawLetter c = "A"
  · rw [hA]; decide
  · by_cases hB : rawLetter c = "B"
    · rw [hB]; decide
    · by_cases hC : rawLetter c = "C"
      · rw [hC]; decide
      · by_cases hD : rawLetter c = "D"
        · rw [hD]; decide
        · have hval : jsIndexOfAux (rawLetter c) [("A"), ("B"), ("C"), ("D")] = -1 := by
            simp [jsIndexOfAux, hA, hB, hC, hD]
          simp [hval]

theorem correctIndexOfLetter_invalid (c : Option String)
    (h : rawLetter c ∉ [("A"), ("B"), ("C"), ("D")]) :
    correctIndexOfLetter c = 0 := by
  simp only [List.mem_cons, List.not_mem_nil, or_false, not_or] at h
  obtain ⟨hA, hB, hC, hD⟩ := h
  have hval : jsIndexOfAux (rawLetter c) [("A"), ("B"), ("C"), ("D")] = -1 := by
    simp [jsIndexOfAux, hA, hB, hC, hD]
  simp [correctIndexOfLetter, jsIndexOf, hval]

theorem correctIndexOfLetter_missing (c : Option String)
    (h : c = none ∨ c = some "") : correctIndexOfLetter c = 0 := by
  rcases h with rfl | rfl <;> decide

theorem presentOptions_len_four (a b c d : Option String)
    (ha : optPresent a = true) (hb : optPresent b = true)
    (hc : optPresent c = true) (hd : optPresent d = true) :
    (presentOptions [a, b, c, d]).length = 4 := by
  cases a with
  | none => simp [optPresent] at ha
  | some sa =>
    cases b with
    | none => simp [optPresent] at hb
    | some sb =>
      cases c with
      | none => simp [optPresent] at hc
      | some sc =>
        cases d with
        | none => simp [optPresent] at hd
        | some sd =>
          simp only [optPresent, decide_eq_true_eq] at ha hb hc hd
          simp [presentOptions, ha, hb, hc, hd]

/-! ### Claim C2 -/

/-- C2 (counterexample): the loader invariant
`0 ≤ correctOptionIndex < len(options)` fails on a raw record with only
option A present and correct letter D: the produced index is 3 but the
compacted options list has length 1. -/
theorem C2_counterexample :
    ¬ ((transformQuestion 0 rawOnlyA).correctAnswer <
       (transformQuestion 0 rawOnlyA).options.length) := by
  decide

/-- C2 (amended): the correct-answer index produced by the loader is a
position among the four raw option fields: it always satisfies
`0 ≤ index ≤ 3`, it defaults to 0 when the raw correct-answer letter is an
invalid letter (its trimmed uppercase form is none of A–D) and likewise
when the letter field is missing or empty (the `|| 'A'` default maps it to
letter A, index 0), and it satisfies `index < len(options)` whenever all
four option fields are present and non-empty — but not in general, because
`filter(Boolean)` compacts the options list below the letter position when
earlier option fields are missing. -/
theorem C2_index_bounds (i1 i2 i3 : Nat) (r1 r2 r3 : RawQuestion)
    (h1 : rawLetter r1.CorrectAnswer ∉ [("A"), ("B"), ("C"), ("D")])
    (h2a : optPresent r2.OptionA = true) (h2b : optPresent r2.OptionB = true)
    (h2c : optPresent r2.OptionC = true) (h2d : optPresent r2.OptionD = true)
    (h3 : r3.CorrectAnswer = none ∨ r3.CorrectAnswer = some "") :
    (∀ i r, (transformQuestion i r).correctAnswer ≤ 3) ∧
    (transformQuestion i1 r1).correctAnswer = 0 ∧
    (transformQuestion i3 r3).correctAnswer = 0 ∧
    (transformQuestion i2 r2).correctAnswer < (transformQuestion i2 r2).options.length := by
  refine ⟨fun i r => correctIndexOfLetter_le_three r.CorrectAnswer, ?_, ?_, ?_⟩
  · exact correctIndexOfLetter_invalid r1.CorrectAnswer h1
  · exact correctIndexOfLetter_missing r3.CorrectAnswer h3
  · show correctIndexOfLetter r2.CorrectAnswer <
      (presentOptions [r2.OptionA, r2.OptionB, r2.OptionC, r2.OptionD]).length
    rw [presentOptions_len_four r2.OptionA r2.OptionB r2.OptionC r2.OptionD h2a h2b h2c h2d]
    have := correctIndexOfLetter_le_three r2.CorrectAnswer
    omega

/-- C2 (witness): the amended statement at the concrete records
`rawAllOptionsZ` (all options present, letter Z) for the invalid-letter
and in-range parts, `rawNoLetter` (no correct-answer field) for the
missing-letter default, and `rawOnlyA` for the 0-to-3 bound. -/
theorem C2_index_bounds_witness :
    (transformQuestion 2 rawOnlyA).correctAnswer ≤ 3 ∧
    (transformQuestion 0 rawAllOptionsZ).correctAnswer = 0 ∧
    (transformQuestion 3 rawNoLetter).correctAnswer = 0 ∧
    (transformQuestion 1 rawAllOptionsZ).correctAnswer <
      (transformQuestion 1 rawAllOptionsZ).options.length :=
  ⟨(C2_index_bounds 0 1 3 rawAllOptionsZ rawAllOptionsZ rawNoLetter (by decide) (by decide)
      (by decide) (by decide) (by decide) (by decide)).1 2 rawOnlyA,
   (C2_index_bounds 0 1 3 rawAllOptionsZ rawAllOptionsZ rawNoLetter (by decide) (by decide)
      (by decide) (by decide) (by decide) (by decide)).2.1,
   (C2_index_bounds 0 1 3 rawAllOptionsZ rawAllOptionsZ rawNoLetter (by decide) (by decide)
      (by decide) (by decide) (by decide) (by decide)).2.2.1,
   (C2_index_bounds 0 1 3 rawAllOptionsZ rawAllOptionsZ rawNoLetter (by decide) (by decide)
      (by decide) (by decide) (by decide) (by decide)).2.2.2⟩

/-! ### Claim C3 -/

/-- C3 (counterexample): normalizing `"  governance and management of it "`
and `"Governance And Management Of It"` does NOT yield one identical label:
JS `split(' ')` keeps empty fragments, so the leading and trailing spaces of
the first string survive normalization. -/
theorem C3_counterexample :
    ¬ (normalizeDomain (some ("  governance and management of it ")) =
       normalizeDomain (some ("Governance And Management Of It"))) := by
  decide

/-- C3 (amended): domain normalization maps raw domain strings that differ
only in letter case (with identical spacing) to one identical canonical
label; `"governance and management of it"` normalizes exactly to the
weight-table key `"Governance And Management Of It"`; spacing differences
survive, so the space-padded variant does not match any weight-table key. -/
theorem C3_case_insensitive (s t : String) (hs : s ≠ "") (ht : t ≠ "")
    (h : lowerStr s = lowerStr t) :
    normalizeDomain (some s) = normalizeDomain (some t) ∧
    normalizeDomain (some ("governance and management of it")) =
      "Governance And Management Of It" ∧
    ("Governance And Management Of It") ∈ CISA_DOMAIN_WEIGHTS.map Prod.fst ∧
    normalizeDomain (some ("  governance and management of it ")) ∉
      CISA_DOMAIN_WEIGHTS.map Prod.fst := by
  refine ⟨?_, by decide, by decide, by decide⟩
  have e1 : strOrDefault (some s) ("General") = s := by simp [strOrDefault, hs]
  have e2 : strOrDefault (some t) ("General") = t := by simp [strOrDefault, ht]
  unfold normalizeDomain
  rw [e1, e2]
  unfold titleCase
  rw [h]

/-- C3 (witness): two concrete strings differing only in case normalize to
the same label. -/
theorem C3_case_insensitive_witness :
    normalizeDomain (some ("GOVERNANCE and Management of it")) =
      normalizeDomain (some ("governance and management of it")) ∧
    normalizeDomain (some ("governance and management of it")) =
      "Governance And Management Of It" ∧
    ("Governance And Management Of It") ∈ CISA_DOMAIN_WEIGHTS.map Prod.fst ∧
    normalizeDomain (some ("  governance and management of it ")) ∉
      CISA_DOMAIN_WEIGHTS.map Prod.fst :=
  C3_case_insensitive ("GOVERNANCE and Management of it")
    ("governance and management of it") (by decide) (by decide) (by decide)

/-! ### Claim C4 -/

/-- C4: scoring is deterministic — `calculateScore` counts exactly the
questions whose recorded answer equals the correct index, and the
percentage equals `round(100 * correctCount / totalQuestions)` (with
Mathlib's `round`, which rounds half up exactly like JS `Math.round`), and
is 0 when `totalQuestions = 0`. -/
theorem C4_score_deterministic (questions : List Question) (answers : Nat → Option Nat) :
    (calculateScore questions answers).correct =
      (questions.filter (fun q => answers q.id = some q.correctAnswer)).length ∧
    (calculateScore questions answers).total = questions.length ∧
    (calculateScore questions answers).percentage =
      (if (calculateScore questions answers).total = 0 then 0
       else round ((100 : ℚ) * ((calculateScore questions answers).correct : ℚ) /
         ((calculateScore questions answers).total : ℚ))) := by
  refine ⟨rfl, rfl, ?_⟩
  show (if questions.length > 0 then
      jsRound (((questions.filter (fun q => answers q.id = some q.correctAnswer)).length : ℚ) /
        (questions.length : ℚ) * 100)
    else 0) =
    (if questions.length = 0 then 0
     else round ((100 : ℚ) *
       ((questions.filter (fun q => answers q.id = some q.correctAnswer)).length : ℚ) /
       (questions.length : ℚ)))
  by_cases h : questions.length = 0
  · simp [h]
  · have hpos : 0 < questions.length := Nat.pos_of_ne_zero h
    rw [if_pos hpos, if_neg h, round_eq]
    unfold jsRound
    congr 1
    ring

/-! ### Claim C10 -/

/-- C10: every `SessionResult` is internally consistent — the per-domain
`total` counts sum to `totalQuestions`, the per-domain `correct` counts sum
to `correctAnswers`, and an unanswered question counts toward the totals
but never toward the correct counts (it is scored as incorrect). -/
theorem C10_session_result_consistent (now : Nat) (s : AppState) :
    totalOfBd (recordSession now s).1.domainBreakdown = (recordSession now s).1.totalQuestions ∧
    correctOfBd (recordSession now s).1.domainBreakdown = (recordSession now s).1.correctAnswers ∧
    (recordSession now s).1.correctAnswers =
      ((s.questions.filter (fun q => s.selectedAnswers q.id ≠ none)).filter
        (fun q => s.selectedAnswers q.id = some q.correctAnswer)).length := by
  refine ⟨?_, ?_, ?_⟩
  · show totalOfBd (domainBreakdown s.questions s.selectedAnswers) = s.questions.length
    exact totalOfBd_domainBreakdown _ _
  · show correctOfBd (domainBreakdown s.questions s.selectedAnswers) =
      (calculateScore s.questions s.selectedAnswers).correct
    rw [correctOfBd_domainBreakdown]
    rfl
  · show (s.questions.filter (fun q => s.selectedAnswers q.id = some q.correctAnswer)).length = _
    rw [List.filter_filter]
    congr 1
    apply List.filter_congr
    intro x hx
    by_cases hx2 : s.selectedAnswers x.id = some x.correctAnswer
    · simp [hx2]
    · simp [hx2]

/-! ### Claim C8 -/

/-- C8: aggregation is purely additive and order-independent — folding a
breakdown into `domainPerformance` adds its per-domain counts onto the
running entry, leaves the entries of a domain absent from the breakdown
untouched, and for any sequence of recorded sessions the final per-domain
totals are the sums of the per-session counts, invariant under permuting
the recording order. -/
theorem C8_additive_aggregation (perf0 bd : List StatEntry)
    (sessions sessions2 : List (List StatEntry)) (d d2 : String)
    (hnd : keysNodup perf0) (hperm : sessions.Perm sessions2)
    (hd2 : ∀ e ∈ bd, e.1 ≠ d2) :
    corrSum (applyBreakdown perf0 bd) d = corrSum perf0 d + corrSum bd d ∧
    totSum (applyBreakdown perf0 bd) d = totSum perf0 d + totSum bd d ∧
    (applyBreakdown perf0 bd).filter (fun p => p.1 = d2) =
      perf0.filter (fun p => p.1 = d2) ∧
    corrSum (sessions.foldl applyBreakdown perf0) d =
      corrSum perf0 d + (sessions.map (fun b => corrSum b d)).sum ∧
    totSum (sessions.foldl applyBreakdown perf0) d =
      totSum perf0 d + (sessions.map (fun b => totSum b d)).sum ∧
    corrSum (sessions.foldl applyBreakdown perf0) d =
      corrSum (sessions2.foldl applyBreakdown perf0) d ∧
    totSum (sessions.foldl applyBreakdown perf0) d =
      totSum (sessions2.foldl applyBreakdown perf0) d := by
  refine ⟨corrSum_applyBreakdown _ _ _ hnd, totSum_applyBreakdown _ _ _ hnd,
    filter_applyBreakdown_notin _ _ _ hnd hd2,
    corrSum_foldl_sessions _ _ _ hnd, totSum_foldl_sessions _ _ _ hnd, ?_, ?_⟩
  · rw [corrSum_foldl_sessions _ _ _ hnd, corrSum_foldl_sessions _ _ _ hnd,
      (hperm.map (fun b => corrSum b d)).sum_eq]
  · rw [totSum_foldl_sessions _ _ _ hnd, totSum_foldl_sessions _ _ _ hnd,
      (hperm.map (fun b => totSum b d)).sum_eq]

/-- C8 (witness): the additive-aggregation statement at concrete stats. -/
theorem C8_additive_aggregation_witness :
    corrSum (applyBreakdown [(("General"), 1, 2)] [(("General"), 1, 1)]) ("General") =
      corrSum [(("General"), 1, 2)] ("General") +
        corrSum [(("General"), 1, 1)] ("General") ∧
    totSum (applyBreakdown [(("General"), 1, 2)] [(("General"), 1, 1)]) ("General") =
      totSum [(("General"), 1, 2)] ("General") +
        totSum [(("General"), 1, 1)] ("General") ∧
    (applyBreakdown [(("General"), 1, 2)] [(("General"), 1, 1)]).filter
        (fun p => p.1 = "Other") =
      ([(("General"), 1, 2)] : List StatEntry).filter (fun p => p.1 = "Other") ∧
    corrSum ([[(("General"), 1, 1)], [(("Other"), 0, 2)]].foldl applyBreakdown
        [(("General"), 1, 2)]) ("General") =
      corrSum [(("General"), 1, 2)] ("General") +
        ([[(("General"), 1, 1)], [(("Other"), 0, 2)]].map
          (fun b => corrSum b ("General"))).sum ∧
    totSum ([[(("General"), 1, 1)], [(("Other"), 0, 2)]].foldl applyBreakdown
        [(("General"), 1, 2)]) ("General") =
      totSum [(("General"), 1, 2)] ("General") +
        ([[(("General"), 1, 1)], [(("Other"), 0, 2)]].map
          (fun b => totSum b ("General"))).sum ∧
    corrSum ([[(("General"), 1, 1)], [(("Other"), 0, 2)]].foldl applyBreakdown
        [(("General"), 1, 2)]) ("General") =
      corrSum ([[(("Other"), 0, 2)], [(("General"), 1, 1)]].foldl applyBreakdown
        [(("General"), 1, 2)]) ("General") ∧
    totSum ([[(("General"), 1, 1)], [(("Other"), 0, 2)]].foldl applyBreakdown
        [(("General"), 1, 2)]) ("General") =
      totSum ([[(("Other"), 0, 2)], [(("General"), 1, 1)]].foldl applyBreakdown
        [(("General"), 1, 2)]) ("General") :=
  C8_additive_aggregation [(("General"), 1, 2)] [(("General"), 1, 1)]
    [[(("General"), 1, 1)], [(("Other"), 0, 2)]] [[(("Other"), 0, 2)], [(("General"), 1, 1)]]
    ("General") ("Other") (by decide) (List.Perm.swap _ _ _) (by decide)

/-! ### Claim C1 -/

/-- C1 (counterexample): `finish` is not idempotent — submitting twice from
the same completed state appends two entries to `sessionHistory`, not one:
`handleSubmit` and `recordSession` contain no completed-state guard. -/
theorem C1_counterexample :
    ¬ ((handleSubmit 5 (handleSubmit 5 practiceAnswered)).sessionHistory.length =
       practiceAnswered.sessionHistory.length + 1) := by
  decide

/-- C1 (amended): each call to `handleSubmit` records again: after a second
call, `sessionHistory` has grown by exactly two entries and every domain's
running performance counters have been incremented twice; the second
recomputed result coincides with the first on all score fields
(`totalQuestions`, `correctAnswers`, `percentage`, `domainBreakdown`)
because the session state is unchanged, but its `mode` field is the
results-screen mode `"results"` set by the first submit. -/
theorem C1_second_finish_double_records (s : AppState) (t u : Nat) (d : String)
    (hnd : keysNodup s.domainPerformance) :
    (handleSubmit u (handleSubmit t s)).sessionHistory.length =
      s.sessionHistory.length + 2 ∧
    corrSum (handleSubmit u (handleSubmit t s)).domainPerformance d =
      corrSum s.domainPerformance d +
        2 * corrSum (domainBreakdown s.questions s.selectedAnswers) d ∧
    totSum (handleSubmit u (handleSubmit t s)).domainPerformance d =
      totSum s.domainPerformance d +
        2 * totSum (domainBreakdown s.questions s.selectedAnswers) d ∧
    (recordSession u (handleSubmit t s)).1.mode = "results" ∧
    (recordSession u (handleSubmit t s)).1.totalQuestions =
      (recordSession t s).1.totalQuestions ∧
    (recordSession u (handleSubmit t s)).1.correctAnswers =
      (recordSession t s).1.correctAnswers ∧
    (recordSession u (handleSubmit t s)).1.percentage =
      (recordSession t s).1.percentage ∧
    (recordSession u (handleSubmit t s)).1.domainBreakdown =
      (recordSession t s).1.domainBreakdown := by
  have hist2 : (handleSubmit u (handleSubmit t s)).sessionHistory =
      (recordSession u (handleSubmit t s)).1 ::
        (recordSession t s).1 :: s.sessionHistory := rfl
  have hperf2 : (handleSubmit u (handleSubmit t s)).domainPerformance =
      applyBreakdown
        (applyBreakdown s.domainPerformance (domainBreakdown s.questions s.selectedAnswers))
        (domainBreakdown s.questions s.selectedAnswers) := rfl
  refine ⟨?_, ?_, ?_, rfl, rfl, rfl, rfl, rfl⟩
  · rw [hist2]
    simp only [List.length_cons]
  · rw [hperf2, corrSum_applyBreakdown _ _ _ (keysNodup_applyBreakdown _ _ hnd),
      corrSum_applyBreakdown _ _ _ hnd]
    omega
  · rw [hperf2, totSum_applyBreakdown _ _ _ (keysNodup_applyBreakdown _ _ hnd),
      totSum_applyBreakdown _ _ _ hnd]
    omega

/-- C1 (witness): the amended statement at a concrete answered practice
session. -/
theorem C1_second_finish_double_records_witness :
    (handleSubmit 7 (handleSubmit 5 practiceAnswered)).sessionHistory.length =
      practiceAnswered.sessionHistory.length + 2 ∧
    corrSum (handleSubmit 7 (handleSubmit 5 practiceAnswered)).domainPerformance ("General") =
      corrSum practiceAnswered.domainPerformance ("General") +
        2 * corrSum (domainBreakdown practiceAnswered.questions
          practiceAnswered.selectedAnswers) ("General") ∧
    totSum (handleSubmit 7 (handleSubmit 5 practiceAnswered)).domainPerformance ("General") =
      totSum practiceAnswered.domainPerformance ("General") +
        2 * totSum (domainBreakdown practiceAnswered.questions
          practiceAnswered.selectedAnswers) ("General") ∧
    (recordSession 7 (handleSubmit 5 practiceAnswered)).1.mode = "results" ∧
    (recordSession 7 (handleSubmit 5 practiceAnswered)).1.totalQuestions =
      (recordSession 5 practiceAnswered).1.totalQuestions ∧
    (recordSession 7 (handleSubmit 5 practiceAnswered)).1.correctAnswers =
      (recordSession 5 practiceAnswered).1.correctAnswers ∧
    (recordSession 7 (handleSubmit 5 practiceAnswered)).1.percentage =
      (recordSession 5 practiceAnswered).1.percentage ∧
    (recordSession 7 (handleSubmit 5 practiceAnswered)).1.domainBreakdown =
      (recordSession 5 practiceAnswered).1.domainBreakdown :=
  C1_second_finish_double_records practiceAnswered 5 7 ("General") (by decide)

/-! ### Claim C5 -/

/-- C5: in practice modes a click on an option of an already-answered
question is rejected by the disabled button guard and the whole state is
unchanged; in exam mode every click is accepted and overwrites the
recorded answer for the current question (so it can be changed any number
of times), leaving the missed-ids set, the timing map and all other state
components unchanged. -/
theorem C5_practice_lock_exam_change (s t : AppState) (now now2 i j : Nat)
    (hs1 : startsWithStr s.currentMode ("practice") = true)
    (hs2 : (s.selectedAnswers (currentQ s).id).isSome = true)
    (ht : t.currentMode = "exam") :
    answerOptionClick now i s = s ∧
    (answerOptionClick now2 j t).selectedAnswers =
      (fun x => if x = (currentQ t).id then some j else t.selectedAnswers x) ∧
    (answerOptionClick now2 j t).incorrectlyAnswered = t.incorrectlyAnswered ∧
    (answerOptionClick now2 j t).questionTimes = t.questionTimes ∧
    (answerOptionClick now2 j t).sessionHistory = t.sessionHistory ∧
    (answerOptionClick now2 j t).domainPerformance = t.domainPerformance ∧
    (answerOptionClick now2 j t).currentMode = t.currentMode ∧
    (answerOptionClick now2 j t).currentQuestion = t.currentQuestion := by
  have hsw : startsWithStr t.currentMode ("practice") = false := by
    rw [ht]
    decide
  refine ⟨?_, ?_, ?_, ?_, ?_, ?_, ?_, ?_⟩
  · unfold answerOptionClick
    rw [if_pos ⟨hs2, hs1⟩]
  all_goals
    unfold answerOptionClick handleAnswerSelect
    rw [if_neg (by rw [hsw]; simp)]
    rw [if_neg (by rw [hsw]; exact Bool.false_ne_true)]

/-- C5 (witness): the lock/changeability statement at a concrete answered
practice state and a concrete exam state: the locked click is a no-op, and
the exam click overwrites the previously chosen option 1 with option 0
while leaving the answer of the other question and all other state parts
unchanged. -/
theorem C5_practice_lock_exam_change_witness :
    answerOptionClick 3 1 practiceAnswered = practiceAnswered ∧
    (answerOptionClick 4 0 examState).selectedAnswers 1 = some 0 ∧
    (answerOptionClick 4 0 examState).selectedAnswers 2 = examState.selectedAnswers 2 ∧
    (answerOptionClick 4 0 examState).incorrectlyAnswered =
      examState.incorrectlyAnswered ∧
    (answerOptionClick 4 0 examState).questionTimes = examState.questionTimes ∧
    (answerOptionClick 4 0 examState).sessionHistory = examState.sessionHistory ∧
    (answerOptionClick 4 0 examState).domainPerformance =
      examState.domainPerformance ∧
    (answerOptionClick 4 0 examState).currentMode = examState.currentMode ∧
    (answerOptionClick 4 0 examState).currentQuestion = examState.currentQuestion := by
  have h := C5_practice_lock_exam_change practiceAnswered examState 3 4 1 0
    (by decide) (by decide) rfl
  refine ⟨h.1, ?_, ?_, h.2.2.1, h.2.2.2.1, h.2.2.2.2.1, h.2.2.2.2.2.1,
    h.2.2.2.2.2.2.1, h.2.2.2.2.2.2.2⟩
  · rw [h.2.1]
    decide
  · rw [h.2.1]
    decide

/-! ### Claim C9 -/

theorem topUpGo_stuck_aux :
    ∀ fuel k,
      topUpGo twoQuestions 2 (fun _ => 0) fuel k [mkQ 1 ("General")] =
        ([mkQ 1 ("General")], false)
  | 0, k => by simp [topUpGo, twoQuestions]
  | fuel + 1, k => by
    have hany : ([mkQ 1 ("General")].any fun p =>
        p.id = (twoQuestions.getD (0 % twoQuestions.length) defaultQuestion).id) = true := by
      decide
    rw [topUpGo_succ_skip twoQuestions 2 (fun _ => 0) fuel k [mkQ 1 ("General")]
      (by decide) hany]
    exact topUpGo_stuck_aux fuel (k + 1)

/-- C9 (counterexample): the top-up loop does NOT stop after finitely many
iterations for every behavior of the random source — on the two-question
catalog with unique ids, one question already selected and a random source
that always proposes index 0 (the already-selected question), no iteration
budget ever makes the loop condition false. -/
theorem C9_counterexample :
    ¬ ∃ fuel, (topUpGo twoQuestions 2 (fun _ => 0) fuel 0 [mkQ 1 ("General")]).2 = true := by
  rintro ⟨fuel, h⟩
  rw [topUpGo_stuck_aux fuel 0] at h
  simp at h

/-- C9 (amended): the top-up loop terminates for every catalog with unique
ids under a fair random source: with the round-robin source (which proposes
every catalog index in every window of `catalog.length` draws), after at
most `catalog.length * catalog.length` iterations the loop condition is
false — the selection has reached the requested total or exhausted the
catalog.  An adversarial source that forever proposes an already-selected
question's index prevents termination, so the claim's "for every behavior
of the random source" does not hold. -/
theorem C9_roundRobin_terminates (all : List Question) (examQuestionCount k : Nat)
    (sel : List Question) (hids : (all.map Question.id).Nodup) :
    (topUpGo all examQuestionCount (fun x => x) (all.length * all.length) k sel).2 = true ∧
    ¬((topUpGo all examQuestionCount (fun x => x)
          (all.length * all.length) k sel).1.length < examQuestionCount ∧
      (topUpGo all examQuestionCount (fun x => x)
          (all.length * all.length) k sel).1.length < all.length) := by
  have hdone := topUpGo_roundRobin_done all examQuestionCount hids k sel
  exact ⟨hdone, topUpGo_done_not_cond all examQuestionCount (fun x => x) _ k sel hdone⟩

/-- C9 (witness): round-robin termination on the concrete two-question
catalog starting from an empty selection. -/
theorem C9_roundRobin_terminates_witness :
    (topUpGo twoQuestions 2 (fun x => x)
        (twoQuestions.length * twoQuestions.length) 0 []).2 = true ∧
    ¬((topUpGo twoQuestions 2 (fun x => x)
          (twoQuestions.length * twoQuestions.length) 0 []).1.length < 2 ∧
      (topUpGo twoQuestions 2 (fun x => x)
          (twoQuestions.length * twoQuestions.length) 0 []).1.length <
        twoQuestions.length) :=
  C9_roundRobin_terminates twoQuestions 2 0 [] (by decide)

/-! ### Claim C7 -/

/-- C7: when the catalog cannot supply `examQuestionCount` questions, the
exam selection returns all available questions (a permutation of the whole
catalog) and raises the partial-exam warning flag — it neither silently
returns fewer questions nor fails (the selection is a total function).
The top-up draw is modelled with the fair round-robin index source, under
which the loop terminates. -/
theorem C7_exam_underfill (all : List Question) (examQuestionCount : Nat)
    (shuf finalShuf : List Question → List Question)
    (hshuf : ∀ l, (shuf l).Perm l) (hfinal : ∀ l, (finalShuf l).Perm l)
    (hids : (all.map Question.id).Nodup)
    (hlt : all.length < examQuestionCount) :
    ((selectExamSet all examQuestionCount shuf finalShuf (fun x => x)
        (all.length * all.length)).1).Perm all ∧
    (selectExamSet all examQuestionCount shuf finalShuf (fun x => x)
        (all.length * all.length)).2 = true := by
  have hW : (CISA_DOMAIN_WEIGHTS.map (fun dw => stripSpaces dw.1)).Nodup := by decide
  have hwsub : (weightedPick all examQuestionCount shuf).Subperm all :=
    weightedPick_subperm all examQuestionCount shuf hshuf hW
  have hdone := topUpGo_roundRobin_done all examQuestionCount hids 0
    (weightedPick all examQuestionCount shuf)
  have hsub := topUpGo_subperm all examQuestionCount (fun x => x)
    (all.length * all.length) 0 (weightedPick all examQuestionCount shuf) hwsub
  have hnc := topUpGo_done_not_cond all examQuestionCount (fun x => x)
    (all.length * all.length) 0 (weightedPick all examQuestionCount shuf) hdone
  obtain ⟨T, hT⟩ : ∃ T, (topUpGo all examQuestionCount (fun x => x)
      (all.length * all.length) 0 (weightedPick all examQuestionCount shuf)).1 = T :=
    ⟨_, rfl⟩
  rw [hT] at hsub hnc
  have hlen_le : T.length ≤ all.length := hsub.length_le
  have hlen_eq : T.length = all.length := by
    rcases not_and_or.mp hnc with h | h
    · omega
    · omega
  have hperm : T.Perm all := hsub.perm_of_length_le (by omega)
  have htake : T.take examQuestionCount = T := List.take_of_length_le (by omega)
  have hfst : (selectExamSet all examQuestionCount shuf finalShuf (fun x => x)
      (all.length * all.length)).1 = finalShuf (T.take examQuestionCount) := by
    rw [← hT]
    rfl
  have hsnd : (selectExamSet all examQuestionCount shuf finalShuf (fun x => x)
      (all.length * all.length)).2 =
      decide ((T.take examQuestionCount).length < examQuestionCount) := by
    rw [← hT]
    rfl
  constructor
  · rw [hfst, htake]
    exact (hfinal T).trans hperm
  · rw [hsnd, htake]
    simp only [decide_eq_true_eq, hlen_eq]
    omega

/-- C7 (witness): the partial-exam signal on a concrete ten-question catalog
with `examQuestionCount = 150`. -/
theorem C7_exam_underfill_witness :
    ((selectExamSet catalog10 150 (fun l => l) (fun l => l) (fun x => x)
        (catalog10.length * catalog10.length)).1).Perm catalog10 ∧
    (selectExamSet catalog10 150 (fun l => l) (fun l => l) (fun x => x)
        (catalog10.length * catalog10.length)).2 = true :=
  C7_exam_underfill catalog10 150 (fun l => l) (fun l => l)
    (fun l => List.Perm.refl l) (fun l => List.Perm.refl l) (by decide) (by decide)

/-! ### Claim C6 -/

/-- C6: with `examQuestionCount = 150` and a catalog with unique ids whose
weighted domain pools each hold at least `round(150 * weight)` questions
(27, 27, 18, 39 and 39 for the five fixed weights), the exam selection
returns exactly 150 distinct questions drawn without replacement from the
catalog, with each weighted domain contributing exactly
`round(150 * weight)` of them, and no partial-exam warning is raised.  The
per-domain and final shuffles are arbitrary permutations. -/
theorem C6_exam_composition (all : List Question)
    (shuf finalShuf : List Question → List Question) (rand : Nat → Nat) (fuel : Nat)
    (hshuf : ∀ l, (shuf l).Perm l) (hfinal : ∀ l, (finalShuf l).Perm l)
    (hids : (all.map Question.id).Nodup)
    (hp1 : 27 ≤ (all.filter (fun q =>
      domainKey q = stripSpaces ("Information System Auditing Process"))).length)
    (hp2 : 27 ≤ (all.filter (fun q =>
      domainKey q = stripSpaces ("Governance And Management Of It"))).length)
    (hp3 : 18 ≤ (all.filter (fun q => domainKey q =
      stripSpaces ("Information Systems Acquisition, Development And Implementation"))).length)
    (hp4 : 39 ≤ (all.filter (fun q => domainKey q =
      stripSpaces ("Information Systems Operations And Business Resilience"))).length)
    (hp5 : 39 ≤ (all.filter (fun q =>
      domainKey q = stripSpaces ("Protection Of Information Assets"))).length) :
    (selectExamSet all 150 shuf finalShuf rand fuel).1.length = 150 ∧
    ((selectExamSet all 150 shuf finalShuf rand fuel).1.map Question.id).Nodup ∧
    (selectExamSet all 150 shuf finalShuf rand fuel).1.Subperm all ∧
    ((selectExamSet all 150 shuf finalShuf rand fuel).1.filter (fun q =>
      domainKey q = stripSpaces ("Information System Auditing Process"))).length =
      (jsRound ((150 : ℚ) * (18 / 100))).toNat ∧
    ((selectExamSet all 150 shuf finalShuf rand fuel).1.filter (fun q =>
      domainKey q = stripSpaces ("Governance And Management Of It"))).length =
      (jsRound ((150 : ℚ) * (18 / 100))).toNat ∧
    ((selectExamSet all 150 shuf finalShuf rand fuel).1.filter (fun q => domainKey q =
      stripSpaces ("Information Systems Acquisition, Development And Implementation"))).length =
      (jsRound ((150 : ℚ) * (12 / 100))).toNat ∧
    ((selectExamSet all 150 shuf finalShuf rand fuel).1.filter (fun q => domainKey q =
      stripSpaces ("Information Systems Operations And Business Resilience"))).length =
      (jsRound ((150 : ℚ) * (26 / 100))).toNat ∧
    ((selectExamSet all 150 shuf finalShuf rand fuel).1.filter (fun q =>
      domainKey q = stripSpaces ("Protection Of Information Assets"))).length =
      (jsRound ((150 : ℚ) * (26 / 100))).toNat ∧
    (selectExamSet all 150 shuf finalShuf rand fuel).2 = false := by
  have hW : (CISA_DOMAIN_WEIGHTS.map (fun dw => stripSpaces dw.1)).Nodup := by decide
  have hpool : ∀ dw ∈ CISA_DOMAIN_WEIGHTS, (jsRound ((150 : ℚ) * dw.2)).toNat ≤
      (all.filter (fun q => domainKey q = stripSpaces dw.1)).length := by
    intro dw hdw
    simp only [CISA_DOMAIN_WEIGHTS, List.mem_cons, List.not_mem_nil, or_false] at hdw
    rcases hdw with rfl | rfl | rfl | rfl | rfl
    · show (jsRound ((150 : ℚ) * (18 / 100))).toNat ≤ (all.filter (fun q =>
        domainKey q = stripSpaces ("Information System Auditing Process"))).length
      rw [jsRound_150_18]
      exact hp1
    · show (jsRound ((150 : ℚ) * (18 / 100))).toNat ≤ (all.filter (fun q =>
        domainKey q = stripSpaces ("Governance And Management Of It"))).length
      rw [jsRound_150_18]
      exact hp2
    · show (jsRound ((150 : ℚ) * (12 / 100))).toNat ≤ (all.filter (fun q => domainKey q =
        stripSpaces ("Information Systems Acquisition, Development And Implementation"))).length
      rw [jsRound_150_12]
      exact hp3
    · show (jsRound ((150 : ℚ) * (26 / 100))).toNat ≤ (all.filter (fun q => domainKey q =
        stripSpaces ("Information Systems Operations And Business Resilience"))).length
      rw [jsRound_150_26]
      exact hp4
    · show (jsRound ((150 : ℚ) * (26 / 100))).toNat ≤ (all.filter (fun q =>
        domainKey q = stripSpaces ("Protection Of Information Assets"))).length
      rw [jsRound_150_26]
      exact hp5
  have hwlen : (weightedPick all 150 shuf).length = 150 := by
    rw [weightedPick_eq_join,
      joinPieces_length all 150 shuf hshuf CISA_DOMAIN_WEIGHTS hpool]
    show ((CISA_DOMAIN_WEIGHTS.map (fun dw => (jsRound ((150 : ℚ) * dw.2)).toNat)).sum) = 150
    simp only [CISA_DOMAIN_WEIGHTS, List.map_cons, List.map_nil, List.sum_cons, List.sum_nil]
    show (jsRound ((150 : ℚ) * (18 / 100))).toNat +
      ((jsRound ((150 : ℚ) * (18 / 100))).toNat +
        ((jsRound ((150 : ℚ) * (12 / 100))).toNat +
          ((jsRound ((150 : ℚ) * (26 / 100))).toNat +
            ((jsRound ((150 : ℚ) * (26 / 100))).toNat + 0)))) = 150
    rw [jsRound_150_18, jsRound_150_12, jsRound_150_26]
  have hwsub : (weightedPick all 150 shuf).Subperm all :=
    weightedPick_subperm all 150 shuf hshuf hW
  have hnodup : ((weightedPick all 150 shuf).map Question.id).Nodup :=
    nodup_of_subperm (subperm_map Question.id hwsub) hids
  have hnc : ¬((weightedPick all 150 shuf).length < 150 ∧
      (weightedPick all 150 shuf).length < all.length) := by
    rw [hwlen]
    intro hcon
    exact absurd hcon.1 (lt_irrefl 150)
  have htop : topUpGo all 150 rand fuel 0 (weightedPick all 150 shuf) =
      (weightedPick all 150 shuf, true) :=
    topUpGo_not_cond all 150 rand fuel 0 _ hnc
  have htake : (weightedPick all 150 shuf).take 150 = weightedPick all 150 shuf :=
    List.take_of_length_le (le_of_eq hwlen)
  have hfst : (selectExamSet all 150 shuf finalShuf rand fuel).1 =
      finalShuf (weightedPick all 150 shuf) := by
    show finalShuf ((topUpGo all 150 rand fuel 0 (weightedPick all 150 shuf)).1.take 150) = _
    rw [htop, htake]
  have hsnd : (selectExamSet all 150 shuf finalShuf rand fuel).2 = false := by
    show decide
      (((topUpGo all 150 rand fuel 0 (weightedPick all 150 shuf)).1.take 150).length < 150) = _
    rw [htop, htake]
    simp [hwlen]
  have hfilters : ∀ dw ∈ CISA_DOMAIN_WEIGHTS,
      ((weightedPick all 150 shuf).filter (fun q => domainKey q = stripSpaces dw.1)).length =
        (jsRound ((150 : ℚ) * dw.2)).toNat := by
    intro dw hdw
    rw [weightedPick_eq_join,
      filter_joinPieces all 150 shuf hshuf CISA_DOMAIN_WEIGHTS hW dw hdw,
      examPiece_length all 150 shuf dw hshuf (hpool dw hdw)]
    norm_num
  have hm1 : (("Information System Auditing Process"), (18 / 100 : ℚ)) ∈
      CISA_DOMAIN_WEIGHTS := by simp [CISA_DOMAIN_WEIGHTS]
  have hm2 : (("Governance And Management Of It"), (18 / 100 : ℚ)) ∈
      CISA_DOMAIN_WEIGHTS := by simp [CISA_DOMAIN_WEIGHTS]
  have hm3 : (("Information Systems Acquisition, Development And Implementation"),
      (12 / 100 : ℚ)) ∈ CISA_DOMAIN_WEIGHTS := by simp [CISA_DOMAIN_WEIGHTS]
  have hm4 : (("Information Systems Operations And Business Resilience"),
      (26 / 100 : ℚ)) ∈ CISA_DOMAIN_WEIGHTS := by simp [CISA_DOMAIN_WEIGHTS]
  have hm5 : (("Protection Of Information Assets"), (26 / 100 : ℚ)) ∈
      CISA_DOMAIN_WEIGHTS := by simp [CISA_DOMAIN_WEIGHTS]
  refine ⟨?_, ?_, ?_, ?_, ?_, ?_, ?_, ?_, hsnd⟩
  · rw [hfst, (hfinal _).length_eq, hwlen]
  · rw [hfst]
    exact (((hfinal _).map Question.id).nodup_iff).mpr hnodup
  · rw [hfst]
    exact ((hfinal _).subperm).trans hwsub
  · rw [hfst]
    exact (((hfinal _).filter _).length_eq).trans (hfilters _ hm1)
  · rw [hfst]
    exact (((hfinal _).filter _).length_eq).trans (hfilters _ hm2)
  · rw [hfst]
    exact (((hfinal _).filter _).length_eq).trans (hfilters _ hm3)
  · rw [hfst]
    exact (((hfinal _).filter _).length_eq).trans (hfilters _ hm4)
  · rw [hfst]
    exact (((hfinal _).filter _).length_eq).trans (hfilters _ hm5)

set_option maxRecDepth 40000 in
/-- C6 (witness): the exam-composition statement at a concrete 150-question
catalog whose five domain pools have exactly the weighted sizes. -/
theorem C6_exam_composition_witness :
    (selectExamSet catalog150 150 (fun l => l) (fun l => l) (fun x => x) 0).1.length = 150 ∧
    ((selectExamSet catalog150 150 (fun l => l) (fun l => l)
      (fun x => x) 0).1.map Question.id).Nodup ∧
    (selectExamSet catalog150 150 (fun l => l) (fun l => l)
      (fun x => x) 0).1.Subperm catalog150 ∧
    ((selectExamSet catalog150 150 (fun l => l) (fun l => l) (fun x => x) 0).1.filter (fun q =>
      domainKey q = stripSpaces ("Information System Auditing Process"))).length =
      (jsRound ((150 : ℚ) * (18 / 100))).toNat ∧
    ((selectExamSet catalog150 150 (fun l => l) (fun l => l) (fun x => x) 0).1.filter (fun q =>
      domainKey q = stripSpaces ("Governance And Management Of It"))).length =
      (jsRound ((150 : ℚ) * (18 / 100))).toNat ∧
    ((selectExamSet catalog150 150 (fun l => l) (fun l => l) (fun x => x) 0).1.filter
      (fun q => domainKey q =
      stripSpaces ("Information Systems Acquisition, Development And Implementation"))).length =
      (jsRound ((150 : ℚ) * (12 / 100))).toNat ∧
    ((selectExamSet catalog150 150 (fun l => l) (fun l => l) (fun x => x) 0).1.filter
      (fun q => domainKey q =
      stripSpaces ("Information Systems Operations And Business Resilience"))).length =
      (jsRound ((150 : ℚ) * (26 / 100))).toNat ∧
    ((selectExamSet catalog150 150 (fun l => l) (fun l => l) (fun x => x) 0).1.filter (fun q =>
      domainKey q = stripSpaces ("Protection Of Information Assets"))).length =
      (jsRound ((150 : ℚ) * (26 / 100))).toNat ∧
    (selectExamSet catalog150 150 (fun l => l) (fun l => l) (fun x => x) 0).2 = false :=
  C6_exam_composition catalog150 (fun l => l) (fun l => l) (fun x => x) 0
    (fun l => List.Perm.refl l) (fun l => List.Perm.refl l) (by decide) (by decide)
    (by decide) (by decide) (by decide) (by decide)

end CISA

